import Mathlib

/-!
Verification of the SDF record stream of `CGRtools/files/SDFrw.py`.

The reader `SDFRead.__reader` is a line-driven state machine; we embed it as a
pure step function over an explicit state, iterated over the list of input
lines (each line carries its trailing newline, as produced by `readline`).
Byte offsets are modelled as character counts (the source files are ASCII).

The collaborators living in the `_mdl` module (`MOLRead`, `EMOLRead`,
`parse_error`, `MDLRead._prepare_meta`, `_convert_structure`, the log buffer
helpers) are not part of the reviewed sources; they are modelled from the
spec as an abstract `Collab` structure of functions, and the metadata
collapse / log formatting as small explicit functions.
-/

namespace SDF

/-- Python `str.strip()`: drop leading and trailing whitespace characters. -/
def pyStrip (s : String) : String :=
  ⟨((s.data.dropWhile Char.isWhitespace).reverse.dropWhile Char.isWhitespace).reverse⟩

/-- Python `line.startswith("$$$$")`. -/
def startsDollars (s : String) : Bool := "$$$$".data.isPrefixOf s.data

/-- Python `sep.join(ss)`. -/
def pyJoin (sep : String) : List String → String
  | [] => ""
  | [s] => s
  | s :: ss => s ++ sep ++ pyJoin sep ss

/-- Sequential concatenation of text chunks, as consecutive
`file.write(...)` calls produce. -/
def strConcat : List String → String
  | [] => ""
  | s :: ss => s ++ strConcat ss

/-- Auxiliary for substring containment: does `pat` occur in `l`? -/
def containsAux (pat : List Char) : List Char → Bool
  | [] => pat.isPrefixOf []
  | c :: cs => pat.isPrefixOf (c :: cs) || containsAux pat cs

/-- Python `pat in line` (substring containment). -/
def pyContains (s pat : String) : Bool := containsAux pat.data s.data

/-- The regex `head = compile(r'>\s.*<(.*)>')` applied with `re.match`
(anchored at the start of the line).  With greedy matching the captured
group is the text between the last `<` (that is followed by some `>`) and
the last `>` of the line, all before any newline; the first two characters
must be `>` and a whitespace character. -/
def headMatch (line : String) : Option String :=
  match line.data with
  | c0 :: w :: tail =>
    if c0 = '>' ∧ w.isWhitespace = true then
      let pre := tail.takeWhile (fun c => c ≠ '\n')
      match pre.reverse.dropWhile (fun c => c ≠ '>') with
      | [] => none
      | _ :: beforeGtRev =>
        let gRev := beforeGtRev.takeWhile (fun c => c ≠ '<')
        if beforeGtRev.length = gRev.length then none
        else some (String.mk gRev.reverse)
    else none
  | _ => none

/-- Python `dict` lookup on an insertion-ordered association list. -/
def dictGet {α : Type} : List (String × α) → String → Option α
  | [], _ => none
  | kv :: d, k => if kv.1 = k then some kv.2 else dictGet d k

/-- Python `dict.__setitem__`: update in place if the key exists, else append. -/
def dictSet {α : Type} : List (String × α) → String → α → List (String × α)
  | [], k, v => [(k, v)]
  | kv :: d, k, v => if kv.1 = k then (k, v) :: d else kv :: dictSet d k v

/-- Python `dict.update`. -/
def dictUpdate {α : Type} (d e : List (String × α)) : List (String × α) :=
  e.foldl (fun acc kv => dictSet acc kv.1 kv.2) d

/-- `defaultdict(list)` append: `meta[mkey].append(data)`. -/
def mdAppend : List (String × List String) → String → String → List (String × List String)
  | [], k, v => [(k, [v])]
  | kv :: d, k, v => if kv.1 = k then (k, kv.2 ++ [v]) :: d else kv :: mdAppend d k v

/-- Modelled from the spec: `MDLRead._prepare_meta` (missing `_mdl` module)
collapses each key's accumulated value lines into one newline-joined string. -/
def prepareMeta (m : List (String × List String)) : List (String × String) :=
  m.map (fun kv => (kv.1, pyJoin "\n" kv.2))

/-- Modelled from the spec: `MDLRead._format_log` (missing `_mdl` module)
joins the captured diagnostic messages. -/
def fmtLog (l : List String) : String := pyJoin "\n" l

/-- Diagnostic message of `self._info(f'line:...consist errors:...')`
(the traceback text is abstracted). -/
def msgLineErr (line : String) : String :=
  "line:\n" ++ line ++ "\nconsist errors:\n<traceback>"

/-- Diagnostic message of `self._info('record consist errors:...')`. -/
def msgRecordErr : String := "record consist errors:\n<traceback>"

/-- Diagnostic message of the `EmptyMolecule` fallback branch. -/
def msgEmptyRetry (line : String) : String :=
  "line:\n" ++ line ++ "\nconsist errors:\nempty atoms list. try to parse as V3000"

/-- Diagnostic message for a metadata header with an empty key. -/
def msgInvalidMeta (line : String) : String := "invalid metadata entry: " ++ line

/-- Failure modes of constructing `MOLRead` from the counts line:
`EmptyMolecule` (a subclass of `ValueError`) or a plain `ValueError`. -/
inductive MolInitErr : Type
  | emptyMolecule
  | valueError
  deriving DecidableEq, Repr

/-- The record dict assembled by the reader: the structural payload from the
block parser, the `meta` dict, and the optional `title` entry. -/
structure MolRec (ρ : Type) where
  core : ρ
  meta : List (String × String)
  title : Option String
  deriving DecidableEq, Repr

/-- Modelled from the spec: the external collaborators of the record stream
(missing `_mdl` module): `MOLRead` construction from the counts line,
`EMOLRead` construction, feeding a line to the active block parser
(`none` = `ValueError`, otherwise completion flag and new parser state),
`getvalue` (structural payload plus the record's initial `meta` dict),
`_convert_structure` (`none` = `ValueError`), and the `meta` dict
assignment on a produced container. -/
structure Collab (σ ρ μ : Type) where
  molInit : String → Except MolInitErr σ
  emolInit : σ
  feed : σ → String → Option (Bool × σ)
  getvalue : σ → ρ × List (String × String)
  convert : MolRec ρ → Option μ
  setMeta : μ → String → String → μ

/-- Reader configuration: the `ignore` and `store_log` options and whether
the underlying file is seekable. -/
structure Cfg where
  ignore : Bool
  store_log : Bool
  seekable : Bool
  deriving DecidableEq, Repr

/-- One observable output of the stream: a converted container or a
`parse_error(count, pos, log, meta)` value. -/
inductive Output (ρ μ : Type) : Type
  | mol (m : μ)
  | err (count : Nat) (pos : Option Nat) (log : String) (meta : List (String × String))
  deriving DecidableEq, Repr

/-- The mutable state of `SDFRead.__reader` (no-seek driving): the local
variables of the generator plus the consumed-byte counter of the file. -/
structure RState (σ ρ : Type) where
  im : Nat
  failkey : Bool
  mkey : String
  parser : Option σ
  record : Option (MolRec ρ)
  title : String
  meta : List (String × List String)
  pos : Option Nat
  count : Nat
  log : List String
  consumed : Nat
  deriving DecidableEq, Repr

/-- Initial generator state (`im = 3`, `pos = 0 if seekable else None`). -/
def initState (cfg : Cfg) (σ ρ : Type) : RState σ ρ :=
  { im := 3, failkey := false, mkey := "", parser := none, record := none,
    title := "", meta := [], pos := if cfg.seekable then some 0 else none,
    count := 0, log := [], consumed := 0 }

/-- `container.meta['CGRtoolsParserLog'] = log` when `store_log` is set and
the formatted log is non-empty. -/
def attachLog {σ ρ μ : Type} (C : Collab σ ρ μ) (cfg : Cfg) (log : List String) (m : μ) : μ :=
  if cfg.store_log then
    let lg := fmtLog log
    if lg ≠ "" then C.setMeta m "CGRtoolsParserLog" lg else m
  else m

/-- `record['meta'].update(self._prepare_meta(meta))` followed by the
conditional `record['title'] = title`. -/
def collapseRec {ρ : Type} (r : MolRec ρ) (meta : List (String × List String))
    (title : String) : MolRec ρ :=
  let r := { r with meta := dictUpdate r.meta (prepareMeta meta) }
  if title ≠ "" then { r with title := some title } else r

/-- The `if record:` body of the `$$$$` branch (and, at end of input, of the
trailing finalization): collapse the accumulated metadata into the record,
set the title when non-empty, convert, and emit the container or a
`parse_error`; the log buffer is flushed. -/
def finalizeRecord {σ ρ μ : Type} (C : Collab σ ρ μ) (cfg : Cfg) (s : RState σ ρ) :
    RState σ ρ × List (Output ρ μ) :=
  match s.record with
  | none => (s, [])
  | some r =>
    let r := collapseRec r s.meta s.title
    match C.convert r with
    | none =>
      ({ s with log := [], record := none },
       [Output.err s.count s.pos (fmtLog (s.log ++ [msgRecordErr])) r.meta])
    | some m =>
      ({ s with log := [], record := none }, [Output.mol (attachLog C cfg s.log m)])

/-- The shared failure path of the counts-line branch
(`except ValueError` at the format dispatch): log, yield
`parse_error(count, pos, log, {})`, enter skip mode, flush. -/
def countsFail {σ ρ μ : Type} (s : RState σ ρ) (line : String) :
    RState σ ρ × List (Output ρ μ) :=
  ({ s with failkey := true, log := [] },
   [Output.err s.count s.pos (fmtLog (s.log ++ [msgLineErr line])) []])

/-- One iteration of the `for line in self.__file` loop of
`SDFRead.__reader`, driven without seek injection (every `yield` receives
`None`).  The file cursor advances by the line length first, then the
`elif` chain of the source runs. -/
def step {σ ρ μ : Type} (C : Collab σ ρ μ) (cfg : Cfg) (s : RState σ ρ) (line : String) :
    RState σ ρ × List (Output ρ μ) :=
  let s := { s with consumed := s.consumed + line.length }
  if s.failkey && !(startsDollars line) then (s, [])
  else match s.parser with
  | some p =>
    match C.feed p line with
    | none =>
      ({ s with parser := none, failkey := true, log := [] },
       [Output.err s.count s.pos (fmtLog (s.log ++ [msgLineErr line])) []])
    | some (done, p') =>
      if done then
        ({ s with parser := none,
                  record := some ⟨(C.getvalue p').1, (C.getvalue p').2, none⟩ }, [])
      else ({ s with parser := some p' }, [])
  | none =>
    if startsDollars line then
      let (s, outs) := finalizeRecord C cfg s
      ({ s with pos := if cfg.seekable then some s.consumed else s.pos,
                count := s.count + 1, im := 3, failkey := false, mkey := "",
                meta := [] }, outs)
    else match s.record with
    | some _ =>
      match headMatch line with
      | some g =>
        let k := pyStrip g
        if k = "" then ({ s with mkey := k, log := s.log ++ [msgInvalidMeta line] }, [])
        else ({ s with mkey := k }, [])
      | none =>
        if s.mkey ≠ "" then
          let d := pyStrip line
          if d ≠ "" then ({ s with meta := mdAppend s.meta s.mkey d }, [])
          else (s, [])
        else (s, [])
    | none =>
      if s.im ≠ 0 then
        let s := if s.im = 3 then { s with title := pyStrip line } else s
        ({ s with im := s.im - 1 }, [])
      else
        if pyContains line "V2000" then
          match C.molInit line with
          | Except.ok p => ({ s with parser := some p }, [])
          | Except.error MolInitErr.emptyMolecule =>
            if cfg.ignore then
              ({ s with parser := some C.emolInit,
                        log := s.log ++ [msgEmptyRetry line] }, [])
            else countsFail s line
          | Except.error MolInitErr.valueError => countsFail s line
        else if pyContains line "V3000" then
          ({ s with parser := some C.emolInit }, [])
        else countsFail s line

/-- Iterate `step` over a list of input lines, concatenating the outputs. -/
def runLines {σ ρ μ : Type} (C : Collab σ ρ μ) (cfg : Cfg) (s : RState σ ρ) :
    List String → RState σ ρ × List (Output ρ μ)
  | [] => (s, [])
  | l :: ls =>
    let so := step C cfg s l
    let so' := runLines C cfg so.1 ls
    (so'.1, so.2 ++ so'.2)

/-- The `if record:` trailing finalization after the `for` loop (a file that
ends without a trailing delimiter). -/
def finish {σ ρ μ : Type} (C : Collab σ ρ μ) (cfg : Cfg) (s : RState σ ρ) :
    List (Output ρ μ) :=
  (finalizeRecord C cfg s).2

/-- All outputs produced by driving the record stream over a file (given as
its list of lines) to completion with no seek injected. -/
def sdfOutputs {σ ρ μ : Type} (C : Collab σ ρ μ) (cfg : Cfg) (lines : List String) :
    List (Output ρ μ) :=
  let so := runLines C cfg (initState cfg σ ρ) lines
  so.2 ++ finish C cfg so.1

/-! ### The byte-offset index: `_get_shifts`, `seek`, `tell` -/

/-- The indexed-stream state relevant to `SDFRead.seek`: the byte-offset
table `self._shifts`, the current byte position of `self._file`, and the
`__already_seeked` flag. -/
structure SeekState where
  shifts : List Nat
  filePos : Nat
  alreadySeeked : Bool
  deriving DecidableEq, Repr

/-- Observable outcome of one `SDFRead.seek` call: silent no-op (target
equals the current position), generator rebuild from end-of-file (with or
without a `send`), a normal reposition-and-send, `BlockingIOError`,
`IndexError`, or the not-implemented error when no index is loaded. -/
inductive SeekOutcome : Type
  | noop
  | rebuilt (sent : Bool)
  | sent
  | blockingError
  | indexError
  | notImplemented
  deriving DecidableEq, Repr

/-- `SDFRead.seek(offset)` (lines 71-98 of `SDFrw.py`). -/
def seekRec (st : SeekState) (offset : Int) : SeekOutcome × SeekState :=
  if st.shifts ≠ [] then
    if 0 ≤ offset ∧ offset < (st.shifts.length : Int) then
      if st.filePos ≠ st.shifts.getD offset.toNat 0 then
        if st.filePos = st.shifts.getLastD 0 then
          if offset ≠ 0 then
            (SeekOutcome.rebuilt true,
             { st with filePos := st.shifts.getD offset.toNat 0, alreadySeeked := true })
          else
            (SeekOutcome.rebuilt false,
             { st with filePos := st.shifts.getD offset.toNat 0 })
        else if st.alreadySeeked = false then
          (SeekOutcome.sent,
           { st with filePos := st.shifts.getD offset.toNat 0, alreadySeeked := true })
        else (SeekOutcome.blockingError, st)
      else (SeekOutcome.noop, st)
    else (SeekOutcome.indexError, st)
  else (SeekOutcome.notImplemented, st)

/-- `bisect_left` on a sorted list: the number of entries strictly below
the probe. -/
def bisectLeft (a : List Nat) (t : Nat) : Nat := a.countP (fun x => x < t)

/-- `SDFRead.tell()` (lines 100-107): `bisect_left(self._shifts, file.tell())`,
or the not-implemented error (`none`) when no index is loaded. -/
def tellRec (shifts : List Nat) (filePos : Nat) : Option Nat :=
  if shifts ≠ [] then some (bisectLeft shifts filePos) else none

/-- The index rule as the spec words it: the index of the largest table
entry less than or equal to the position (table entry 0 is the offset 0,
so the count of entries ≤ the position, minus one). -/
def largestLEIdx (shifts : List Nat) (t : Nat) : Nat :=
  shifts.countP (fun x => x ≤ t) - 1

/-- Offset accumulator for `_get_shifts`: for every line containing the
delimiter pattern, record the byte offset immediately after that line. -/
def getShiftsGo (pos : Nat) : List String → List Nat
  | [] => []
  | l :: ls =>
    if pyContains l "$$$$" then
      (pos + l.length) :: getShiftsGo (pos + l.length) ls
    else getShiftsGo (pos + l.length) ls

/-- `SDFRead._get_shifts` (lines 63-69): `[0]` followed by, for each line
matched by `grep -bE '\$\$\$\$'` (the external byte-offset scan, modelled
in-process), the offset of the line start plus the line length. -/
def getShifts (lines : List String) : List Nat := 0 :: getShiftsGo 0 lines

/-! ### The writer: `SDFWrite.write` -/

/-- Modelled from the spec: the writer's collaborators (missing `_mdl`
module): `MDLWrite._convert_structure` serializing a container into a
mol block (a string, or a list of strings for multi-part containers),
and `data.meta.items()`. -/
structure WCollab (μ : Type) where
  convertW : μ → Sum String (List String)
  metaItems : μ → List (String × String)

/-- `SDFWrite.write(data)` (lines 253-265): the serialized structure (a
list is joined with delimiter lines), one `>  <k>` header plus value chunk
per metadata item, and the trailing delimiter line. -/
def sdfWrite {μ : Type} (W : WCollab μ) (data : μ) : String :=
  (match W.convertW data with
   | Sum.inl s => s
   | Sum.inr l => pyJoin "$$$$\n" l) ++
  strConcat ((W.metaItems data).map (fun kv => ">  <" ++ kv.1 ++ ">\n" ++ kv.2 ++ "\n")) ++
  "$$$$\n"

/-- Accumulator for `splitLines`. -/
def splitLinesAux : List Char → List Char → List String
  | acc, [] => if acc = [] then [] else [String.mk acc.reverse]
  | acc, c :: cs =>
    if c = '\n' then String.mk (c :: acc).reverse :: splitLinesAux [] cs
    else splitLinesAux (c :: acc) cs

/-- Split a file's text into the lines `iter(file.readline, '')` yields:
each line keeps its trailing newline; a final unterminated chunk is one
line. -/
def splitLines (s : String) : List String := splitLinesAux [] s.data

/-! ### Record descriptions and the per-record pipeline -/

/-- Description of one record's lines in an SDF file: the title line, the
two skipped header lines, the counts/format line, the structural block
lines, and the metadata lines.  `render` appends the delimiter line. -/
structure RecDesc where
  l1 : String
  l2 : String
  l3 : String
  counts : String
  block : List String
  metaLines : List String
  deriving DecidableEq, Repr

/-- The literal record delimiter line. -/
def delimLine : String := "$$$$\n"

/-- The lines of a record without its trailing delimiter. -/
def renderNoDelim (d : RecDesc) : List String :=
  [d.l1, d.l2, d.l3, d.counts] ++ d.block ++ d.metaLines

/-- The lines of a complete record. -/
def render (d : RecDesc) : List String := renderNoDelim d ++ [delimLine]

/-- Total byte size of a list of lines. -/
def linesSize (ls : List String) : Nat := (ls.map String.length).sum

/-- Feed the block lines to an active parser; succeeds if every line but
the last reports incomplete and the last line reports completion, returning
the final parser state. -/
def runBlock {σ ρ μ : Type} (C : Collab σ ρ μ) : σ → List String → Option σ
  | _, [] => none
  | p, [l] =>
    match C.feed p l with
    | some (true, p') => some p'
    | _ => none
  | p, l :: l' :: ls =>
    match C.feed p l with
    | some (false, p') => runBlock C p' (l' :: ls)
    | _ => none

/-- Feeding a prefix of a block to an active parser that neither finishes
nor fails on any of its lines: the parser state after the prefix. -/
def runBlockOpen {σ ρ μ : Type} (C : Collab σ ρ μ) : σ → List String → Option σ
  | p, [] => some p
  | p, l :: ls =>
    match C.feed p l with
    | some (false, p') => runBlockOpen C p' ls
    | _ => none

/-- The successful outcomes of the counts-line dispatch (the `elif not im:`
branch): the initial parser state and the diagnostic messages the dispatch
logged (non-empty only for the tolerated-`EmptyMolecule` retry). -/
def initParserR {σ ρ μ : Type} (C : Collab σ ρ μ) (cfg : Cfg) (counts : String) :
    Option (σ × List String) :=
  if pyContains counts "V2000" then
    match C.molInit counts with
    | Except.ok p => some (p, [])
    | Except.error MolInitErr.emptyMolecule =>
      if cfg.ignore then some (C.emolInit, [msgEmptyRetry counts]) else none
    | Except.error MolInitErr.valueError => none
  else if pyContains counts "V3000" then some (C.emolInit, [])
  else none

/-- The metadata-scanning sub-state: current key, accumulated value lists,
and logged messages. -/
structure MetaAcc where
  mkey : String
  meta : List (String × List String)
  log : List String
  deriving DecidableEq, Repr

/-- One metadata line (`elif record:` branch, lines 181-190): a header line
sets the current key (logging when it trims empty); otherwise a non-empty
stripped line is appended under the current key when one is set. -/
def metaStep (a : MetaAcc) (line : String) : MetaAcc :=
  match headMatch line with
  | some g =>
    let k := pyStrip g
    if k = "" then { a with mkey := k, log := a.log ++ [msgInvalidMeta line] }
    else { a with mkey := k }
  | none =>
    if a.mkey ≠ "" then
      let d := pyStrip line
      if d ≠ "" then { a with meta := mdAppend a.meta a.mkey d } else a
    else a

/-- Fold `metaStep` from a fresh metadata sub-state. -/
def metaAccum0 (ls : List String) : MetaAcc := ls.foldl metaStep ⟨"", [], []⟩

/-- Structural parse of one record description: counts-line dispatch then
the block lines. -/
def blockParse {σ ρ μ : Type} (C : Collab σ ρ μ) (cfg : Cfg) (d : RecDesc) : Option σ :=
  (initParserR C cfg d.counts).bind (fun pl => runBlock C pl.1 d.block)

/-- The diagnostic messages accumulated while reading one record. -/
def recLog {σ ρ μ : Type} (C : Collab σ ρ μ) (cfg : Cfg) (d : RecDesc) : List String :=
  (match initParserR C cfg d.counts with
   | some pl => pl.2
   | none => []) ++ (metaAccum0 d.metaLines).log

/-- The finalized record dict of one record description: structural
payload, the initial `meta` dict updated with the collapsed accumulated
metadata, and the title when its stripped form is non-empty. -/
def finalRecOf {σ ρ μ : Type} (C : Collab σ ρ μ) (cfg : Cfg) (d : RecDesc) :
    Option (MolRec ρ) :=
  (blockParse C cfg d).map (fun pF =>
    collapseRec ⟨(C.getvalue pF).1, (C.getvalue pF).2, none⟩
      (metaAccum0 d.metaLines).meta (pyStrip d.l1))

/-- The container produced for one record description, with the parser log
attached when `store_log` requests it. -/
def molOf {σ ρ μ : Type} (C : Collab σ ρ μ) (cfg : Cfg) (d : RecDesc) : Option μ :=
  (finalRecOf C cfg d).bind
    (fun r => (C.convert r).map (attachLog C cfg (recLog C cfg d)))

/-- A line that is not mistaken for a delimiter. -/
def cleanLine (l : String) : Bool := !startsDollars l

/-- The positional lines of a record are not delimiter-prefixed (block
lines are exempt: they are consumed by the active parser first). -/
def descFlags (d : RecDesc) : Bool :=
  cleanLine d.l1 && cleanLine d.l2 && cleanLine d.l3 && cleanLine d.counts &&
  d.metaLines.all cleanLine

/-- A well-formed record: its lines respect the layout and the whole
pipeline (dispatch, block parse, conversion) succeeds. -/
def WF {σ ρ μ : Type} (C : Collab σ ρ μ) (cfg : Cfg) (d : RecDesc) : Bool :=
  descFlags d && (molOf C cfg d).isSome

/-- A line free of the delimiter pattern anywhere (so the external
byte-offset scan does not index it). -/
def noDollar (l : String) : Bool := !pyContains l "$$$$"

/-- No line of the record other than its delimiter contains the delimiter
pattern. -/
def descNoDollar (d : RecDesc) : Bool :=
  noDollar d.l1 && noDollar d.l2 && noDollar d.l3 && noDollar d.counts &&
  d.block.all noDollar && d.metaLines.all noDollar

/-! ### Concrete test collaborators -/

instance {ρ : Type} [Inhabited ρ] : Inhabited (MolRec ρ) := ⟨⟨default, [], none⟩⟩

/-- A concrete record payload for test runs. -/
abbrev TRec := MolRec (List String)

/-- A concrete instantiation of the collaborators, faithful to the spec's
interface: the V2000 parser consumes two block lines (erroring on lines
containing `FAILLINE`, reporting an empty molecule on counts lines
containing `EMPTY` and a format error on `BADFMT`), the V3000 parser
consumes three; conversion fails exactly when the metadata holds the key
`XFAIL`. -/
def TestC : Collab (Nat × List String) (List String) TRec where
  molInit l :=
    if pyContains l "EMPTY" then Except.error MolInitErr.emptyMolecule
    else if pyContains l "BADFMT" then Except.error MolInitErr.valueError
    else Except.ok (2, [])
  emolInit := (3, [])
  feed p l :=
    if pyContains l "FAILLINE" then none
    else if p.1 ≤ 1 then some (true, (0, p.2 ++ [l]))
    else some (false, (p.1 - 1, p.2 ++ [l]))
  getvalue p := (p.2, [])
  convert r := if (dictGet r.meta "XFAIL").isSome then none else some r
  setMeta m k v := { m with meta := dictSet m.meta k v }

/-- Default test configuration. -/
def testCfg : Cfg := { ignore := false, store_log := false, seekable := true }

/-- A stream state that sits exactly at a record boundary: fresh phase
counter, no skip mode, no buffered record data, with the given record
index and consumed-byte bookkeeping. -/
def FreshAt {σ ρ : Type} (s : RState σ ρ) (cfg : Cfg) (count consumed : Nat) : Prop :=
  s.im = 3 ∧ s.failkey = false ∧ s.mkey = "" ∧ s.parser = none ∧ s.record = none ∧
  s.meta = [] ∧ s.log = [] ∧ s.count = count ∧ s.consumed = consumed ∧
  s.pos = (if cfg.seekable then some consumed else none)

/-! ### Concrete test data and round-trip instantiation -/

/-- Canonical record-boundary state with explicit bookkeeping fields. -/
def freshSt (σ ρ : Type) (title : String) (pos : Option Nat) (count consumed : Nat) :
    RState σ ρ :=
  ⟨3, false, "", none, none, title, [], pos, count, [], consumed⟩

/-- Concrete two-record test file (a V2000 record with metadata and a
V3000 record without). -/
def dA : RecDesc :=
  ⟨"Mol A\n", "prog\n", "comment\n", "  2  1  V2000\n", ["a1\n", "a2\n"],
   [">  <key1>\n", "v1\n", "v2\n"]⟩

/-- Second concrete test record. -/
def dB : RecDesc :=
  ⟨"Mol B\n", "\n", "\n", "  0  0  V3000\n", ["x\n", "y\n", "z\n"], []⟩

/-- A structurally complete record whose conversion fails: the metadata
carries the key `XFAIL`, which the test converter rejects. -/
def dBad : RecDesc :=
  ⟨"Mol X\n", "\n", "\n", "  1  0  V2000\n", ["b1\n", "b2\n"],
   [">  <XFAIL>\n", "boom\n"]⟩

/-- A record whose block feed fails mid-way: the test parser rejects the
`FAILLINE` line; the junk line after it must be skipped. -/
def dFeed : RecDesc :=
  ⟨"Mol P\n", "\n", "\n", "  2  0  V2000\n", ["f1\n", "FAILLINE\n", "junk\n"],
   [">  <K>\n", "v\n"]⟩

/-- A malformed record: the counts line carries neither `V2000` nor
`V3000`, and the junk lines after it must be skipped. -/
def dNoMark : RecDesc :=
  ⟨"Mol bad\n", "\n", "\n", "  garbage counts line\n", ["junk1\n", "junk2\n"],
   ["more junk\n"]⟩

/-- A record whose first line is blank and whose third line reads `THIRD`. -/
def dT3 : RecDesc :=
  ⟨"   \n", "SECOND\n", "THIRD\n", "  2  1  V2000\n", ["a\n", "b\n"], []⟩

/-- A record whose counts line makes the test V2000 parser report an empty
molecule; the lenient parser consumes its three block lines. -/
def dEmpty : RecDesc :=
  ⟨"Mol E\n", "\n", "\n", "  0  0 EMPTY V2000\n", ["e1\n", "e2\n", "e3\n"], []⟩

/-- The ends of successive record chunks, starting from `pos`. -/
def chunkSums (pos : Nat) : List RecDesc → List Nat
  | [] => []
  | d :: ds => (pos + linesSize (render d)) :: chunkSums (pos + linesSize (render d)) ds

/-- The lines of one metadata group as the writer frames it: a header
carrying the bracketed key, then one line per value line. -/
def groupLines (k : String) (vls : List String) : List String :=
  (">  <" ++ k ++ ">\n") :: vls.map (fun v => v ++ "\n")

/-- A metadata key the framing round-trips: non-empty, strip-invariant,
free of `<`, `>` and newlines. -/
def goodKey (k : String) : Bool :=
  decide (k ≠ "") && decide (pyStrip k = k) &&
  !(k.data.any (fun c => c = '<' || c = '>' || c = '\n'))

/-- A metadata value line the scanning round-trips: non-empty,
strip-invariant as a line, not a metadata header, not delimiter-prefixed. -/
def goodVal (v : String) : Bool :=
  decide (v ≠ "") && decide (pyStrip (v ++ "\n") = v) &&
  decide (headMatch (v ++ "\n") = none) && !(startsDollars (v ++ "\n")) &&
  !(v.data.any (fun c => c = '\n'))

/-- `meta[mkey].append` iterated over a list of value lines. -/
def mdAppendAll (m : List (String × List String)) (k : String) (vs : List String) :
    List (String × List String) :=
  vs.foldl (fun m v => mdAppend m k v) m

/-- The metadata lines of the C10 witness record: the key `KEY` appears in
two separate groups. -/
def dDup : RecDesc :=
  ⟨"T\n", "\n", "\n", "  1  1  V2000\n", ["x\n", "y\n"],
   groupLines "KEY" ["a1", "a2"] ++ groupLines "KEY" ["b1"]⟩

/-- The counts line the round-trip serializer writes. -/
def rtCounts : String := "  0  0  V2000\n"

/-- Round-trip configuration: plain reading, not seekable, no log storing. -/
def rtCfg : Cfg := ⟨false, false, false⟩

/-- Modelled from the spec: round-trip reader collaborators — the block
parser collects the raw block lines until the `M  END` terminator and
conversion is the identity on the assembled record. -/
def RTC : Collab (List String) (List String) TRec where
  molInit _ := Except.ok []
  emolInit := []
  feed acc l := if l = "M  END\n" then some (true, acc) else some (false, acc ++ [l])
  getvalue acc := (acc, [])
  convert r := some r
  setMeta m k v := { m with meta := dictSet m.meta k v }

/-- Modelled from the spec: the writer-side structure serializer
(`MDLWrite._convert_structure`, missing `_mdl` module): title line, two
blank header lines, a V2000 counts line, the raw block lines, and the
block terminator. -/
def RTW : WCollab TRec where
  convertW m := Sum.inl ((m.title.getD "") ++ "\n" ++ "\n" ++ "\n" ++ rtCounts
    ++ strConcat m.core ++ "M  END\n")
  metaItems m := m.meta

/-- A text chunk free of newline characters. -/
def noNl (s : String) : Bool := !(s.data.any (fun c => c = '\n'))

/-- A title the framing round-trips: absent, or non-empty, line-strip
invariant, newline-free and not delimiter-prefixed. -/
def goodTitle : Option String → Bool
  | none => true
  | some t => decide (t ≠ "") && decide (pyStrip (t ++ "\n") = t) && noNl t &&
      !(startsDollars (t ++ "\n"))

/-- The domain object whose structural lines have the contents `coreC` and
whose metadata values are the newline-joins of `metaG`'s value lines. -/
def mOf (title? : Option String) (coreC : List String)
    (metaG : List (String × List String)) : TRec :=
  ⟨coreC.map (fun l => l ++ "\n"),
   metaG.map (fun kv => (kv.1, pyJoin "\n" kv.2)),
   title?⟩

/-- The record description the writer's output spells, line by line. -/
def rtDesc (title? : Option String) (coreC : List String)
    (metaG : List (String × List String)) : RecDesc :=
  ⟨(title?.getD "") ++ "\n", "\n", "\n", rtCounts,
   coreC.map (fun l => l ++ "\n") ++ ["M  END\n"],
   metaG.flatMap (fun kv => groupLines kv.1 kv.2)⟩

/-! ### Iteration lemmas -/

theorem runLines_append {σ ρ μ : Type} (C : Collab σ ρ μ) (cfg : Cfg)
    (s : RState σ ρ) (xs ys : List String) :
    runLines C cfg s (xs ++ ys) =
      ((runLines C cfg (runLines C cfg s xs).1 ys).1,
       (runLines C cfg s xs).2 ++ (runLines C cfg (runLines C cfg s xs).1 ys).2) := by
  induction xs generalizing s with
  | nil => simp [runLines]
  | cons x xs ih => simp [runLines, ih]

theorem runLines_cons {σ ρ μ : Type} (C : Collab σ ρ μ) (cfg : Cfg)
    (s : RState σ ρ) (l : String) (ls : List String) :
    runLines C cfg s (l :: ls) =
      ((runLines C cfg (step C cfg s l).1 ls).1,
       (step C cfg s l).2 ++ (runLines C cfg (step C cfg s l).1 ls).2) := by
  simp [runLines]

theorem linesSize_cons (l : String) (ls : List String) :
    linesSize (l :: ls) = l.length + linesSize ls := by
  simp [linesSize]

theorem linesSize_append (xs ys : List String) :
    linesSize (xs ++ ys) = linesSize xs + linesSize ys := by
  simp [linesSize]

theorem step_title {σ ρ μ : Type} (C : Collab σ ρ μ) (cfg : Cfg) (s : RState σ ρ)
    (l : String) (hf : s.failkey = false) (hp : s.parser = none)
    (hr : s.record = none) (him : s.im = 3) (hd : startsDollars l = false) :
    step C cfg s l =
      ({ s with im := 2, title := pyStrip l, consumed := s.consumed + l.length }, []) := by
  simp [step, hf, hp, hr, him, hd]

theorem step_skipline {σ ρ μ : Type} (C : Collab σ ρ μ) (cfg : Cfg) (s : RState σ ρ)
    (l : String) (hf : s.failkey = false) (hp : s.parser = none)
    (hr : s.record = none) (him : s.im = 2 ∨ s.im = 1) (hd : startsDollars l = false) :
    step C cfg s l = ({ s with im := s.im - 1, consumed := s.consumed + l.length }, []) := by
  rcases him with him | him <;> simp [step, hf, hp, hr, him, hd]

theorem step_counts {σ ρ μ : Type} (C : Collab σ ρ μ) (cfg : Cfg) (s : RState σ ρ)
    (l : String) (p : σ) (lg : List String) (hf : s.failkey = false)
    (hp : s.parser = none) (hr : s.record = none) (him : s.im = 0)
    (hd : startsDollars l = false) (hip : initParserR C cfg l = some (p, lg)) :
    step C cfg s l =
      ({ s with parser := some p, log := s.log ++ lg,
                consumed := s.consumed + l.length }, []) := by
  unfold initParserR at hip
  by_cases h2 : pyContains l "V2000" = true
  · simp only [h2, if_true] at hip
    cases hmi : C.molInit l with
    | ok p' =>
      simp [hmi] at hip
      simp [step, hf, hp, hr, him, hd, h2, hmi, hip.1, ← hip.2]
    | error e =>
      cases e with
      | emptyMolecule =>
        simp [hmi] at hip
        by_cases hig : cfg.ignore = true
        · simp [hig] at hip
          simp [step, hf, hp, hr, him, hd, h2, hmi, hig, hip.1, ← hip.2]
        · simp [hig] at hip
      | valueError => simp [hmi] at hip
  · simp only [h2, if_false, Bool.not_eq_true] at hip
    by_cases h3 : pyContains l "V3000" = true
    · simp [h3] at hip
      simp [step, hf, hp, hr, him, hd, h2, h3, hip.1, ← hip.2]
    · simp [h3] at hip

theorem step_counts_fail {σ ρ μ : Type} (C : Collab σ ρ μ) (cfg : Cfg) (s : RState σ ρ)
    (l : String) (hf : s.failkey = false) (hp : s.parser = none) (hr : s.record = none)
    (him : s.im = 0) (hd : startsDollars l = false)
    (hip : initParserR C cfg l = none) :
    step C cfg s l =
      ({ s with failkey := true, log := [], consumed := s.consumed + l.length },
       [Output.err s.count s.pos (fmtLog (s.log ++ [msgLineErr l])) []]) := by
  unfold initParserR at hip
  by_cases h2 : pyContains l "V2000" = true
  · simp only [h2, if_true] at hip
    cases hmi : C.molInit l with
    | ok p' => simp [hmi] at hip
    | error e =>
      cases e with
      | emptyMolecule =>
        by_cases hig : cfg.ignore = true
        · simp [hmi, hig] at hip
        · simp [step, countsFail, hf, hp, hr, him, hd, h2, hmi, hig]
      | valueError => simp [step, countsFail, hf, hp, hr, him, hd, h2, hmi]
  · simp only [h2, if_false, Bool.not_eq_true] at hip
    by_cases h3 : pyContains l "V3000" = true
    · simp [h3] at hip
    · simp [step, countsFail, hf, hp, hr, him, hd, h2, h3]

theorem step_feed_more {σ ρ μ : Type} (C : Collab σ ρ μ) (cfg : Cfg) (s : RState σ ρ)
    (l : String) (p p' : σ) (hf : s.failkey = false) (hp : s.parser = some p)
    (hfeed : C.feed p l = some (false, p')) :
    step C cfg s l = ({ s with parser := some p', consumed := s.consumed + l.length }, []) := by
  simp [step, hf, hp, hfeed]

theorem step_feed_done {σ ρ μ : Type} (C : Collab σ ρ μ) (cfg : Cfg) (s : RState σ ρ)
    (l : String) (p p' : σ) (hf : s.failkey = false) (hp : s.parser = some p)
    (hfeed : C.feed p l = some (true, p')) :
    step C cfg s l =
      ({ s with parser := none,
                record := some ⟨(C.getvalue p').1, (C.getvalue p').2, none⟩,
                consumed := s.consumed + l.length }, []) := by
  simp [step, hf, hp, hfeed]

theorem step_feed_fail {σ ρ μ : Type} (C : Collab σ ρ μ) (cfg : Cfg) (s : RState σ ρ)
    (l : String) (p : σ) (hf : s.failkey = false) (hp : s.parser = some p)
    (hfeed : C.feed p l = none) :
    step C cfg s l =
      ({ s with parser := none, failkey := true, log := [],
                consumed := s.consumed + l.length },
       [Output.err s.count s.pos (fmtLog (s.log ++ [msgLineErr l])) []]) := by
  simp [step, hf, hp, hfeed]

theorem run_block {σ ρ μ : Type} (C : Collab σ ρ μ) (cfg : Cfg) (s : RState σ ρ)
    (p pF : σ) (ls : List String) (hf : s.failkey = false) (hp : s.parser = some p)
    (hrb : runBlock C p ls = some pF) :
    runLines C cfg s ls =
      ({ s with parser := none,
                record := some ⟨(C.getvalue pF).1, (C.getvalue pF).2, none⟩,
                consumed := s.consumed + linesSize ls }, []) := by
  induction ls generalizing s p with
  | nil => simp [runBlock] at hrb
  | cons l ls ih =>
    cases ls with
    | nil =>
      unfold runBlock at hrb
      cases hfeed : C.feed p l with
      | none => simp [hfeed] at hrb
      | some dp =>
        cases dp with
        | mk done p' =>
          cases done with
          | false => simp [hfeed] at hrb
          | true =>
            simp [hfeed] at hrb
            subst hrb
            simp [runLines, step_feed_done C cfg s l p p' hf hp hfeed, linesSize]
    | cons l' ls' =>
      unfold runBlock at hrb
      cases hfeed : C.feed p l with
      | none => simp [hfeed] at hrb
      | some dp =>
        cases dp with
        | mk done p' =>
          cases done with
          | true => simp [hfeed] at hrb
          | false =>
            simp only [hfeed] at hrb
            have hstep := step_feed_more C cfg s l p p' hf hp hfeed
            have hrest := ih { s with parser := some p',
                                      consumed := s.consumed + l.length } p' hf (by simp) hrb
            simp only at hrest
            rw [runLines_cons, hstep]
            simp [hrest, linesSize_cons, Nat.add_assoc]

theorem run_block_open {σ ρ μ : Type} (C : Collab σ ρ μ) (cfg : Cfg) (s : RState σ ρ)
    (p p' : σ) (ls : List String) (hf : s.failkey = false) (hp : s.parser = some p)
    (hrb : runBlockOpen C p ls = some p') :
    runLines C cfg s ls =
      ({ s with parser := some p', consumed := s.consumed + linesSize ls }, []) := by
  induction ls generalizing s p with
  | nil =>
    simp only [runBlockOpen, Option.some.injEq] at hrb
    subst hrb
    obtain ⟨im, fk, mk, pr, rec, ti, me, po, co, lo, cons⟩ := s
    simp_all [runLines, linesSize]
  | cons l ls ih =>
    unfold runBlockOpen at hrb
    cases hfeed : C.feed p l with
    | none => simp [hfeed] at hrb
    | some dp =>
      cases dp with
      | mk done q =>
        cases done with
        | true => simp [hfeed] at hrb
        | false =>
          simp only [hfeed] at hrb
          have hstep := step_feed_more C cfg s l p q hf hp hfeed
          have hrest := ih { s with parser := some q,
                                    consumed := s.consumed + l.length } q hf (by simp) hrb
          simp only at hrest
          rw [runLines_cons, hstep]
          simp [hrest, linesSize_cons, Nat.add_assoc]

theorem step_meta {σ ρ μ : Type} (C : Collab σ ρ μ) (cfg : Cfg) (s : RState σ ρ)
    (l : String) (r : MolRec ρ) (hf : s.failkey = false) (hp : s.parser = none)
    (hr : s.record = some r) (hd : startsDollars l = false) :
    step C cfg s l =
      ({ s with mkey := (metaStep ⟨s.mkey, s.meta, s.log⟩ l).mkey,
                meta := (metaStep ⟨s.mkey, s.meta, s.log⟩ l).meta,
                log := (metaStep ⟨s.mkey, s.meta, s.log⟩ l).log,
                consumed := s.consumed + l.length }, []) := by
  cases hm : headMatch l with
  | some g =>
    by_cases hk : pyStrip g = "" <;> simp [step, metaStep, hf, hp, hr, hd, hm, hk]
  | none =>
    by_cases hk : s.mkey = ""
    · simp [step, metaStep, hf, hp, hr, hd, hm, hk]
    · by_cases hdata : pyStrip l = "" <;>
        simp [step, metaStep, hf, hp, hr, hd, hm, hk, hdata]

theorem metaStep_parts (a : MetaAcc) (l : String) :
    (metaStep a l).mkey = (metaStep ⟨a.mkey, a.meta, []⟩ l).mkey ∧
    (metaStep a l).meta = (metaStep ⟨a.mkey, a.meta, []⟩ l).meta ∧
    (metaStep a l).log = a.log ++ (metaStep ⟨a.mkey, a.meta, []⟩ l).log := by
  cases hm : headMatch l with
  | some g => by_cases hk : pyStrip g = "" <;> simp [metaStep, hm, hk]
  | none =>
    by_cases hk : a.mkey = ""
    · simp [metaStep, hm, hk]
    · by_cases hdata : pyStrip l = "" <;> simp [metaStep, hm, hk, hdata]

theorem foldl_metaStep_log (ls : List String) (a : MetaAcc) :
    ls.foldl metaStep a =
      ⟨(ls.foldl metaStep ⟨a.mkey, a.meta, []⟩).mkey,
       (ls.foldl metaStep ⟨a.mkey, a.meta, []⟩).meta,
       a.log ++ (ls.foldl metaStep ⟨a.mkey, a.meta, []⟩).log⟩ := by
  induction ls generalizing a with
  | nil => simp
  | cons l ls ih =>
    simp only [List.foldl_cons]
    obtain ⟨h1, h2, h3⟩ := metaStep_parts a l
    rw [ih (metaStep a l), h1, h2, h3]
    conv_rhs =>
      rw [ih (metaStep ⟨a.mkey, a.meta, []⟩ l)]
    simp [List.append_assoc]

theorem runLines_metaPhase {σ ρ μ : Type} (C : Collab σ ρ μ) (cfg : Cfg) (s : RState σ ρ)
    (ls : List String) (r : MolRec ρ) (hf : s.failkey = false) (hp : s.parser = none)
    (hr : s.record = some r) (hclean : ∀ l ∈ ls, startsDollars l = false) :
    runLines C cfg s ls =
      ({ s with mkey := (ls.foldl metaStep ⟨s.mkey, s.meta, s.log⟩).mkey,
                meta := (ls.foldl metaStep ⟨s.mkey, s.meta, s.log⟩).meta,
                log := (ls.foldl metaStep ⟨s.mkey, s.meta, s.log⟩).log,
                consumed := s.consumed + linesSize ls }, []) := by
  induction ls generalizing s with
  | nil => simp [runLines, linesSize]
  | cons l ls ih =>
    have hstep := step_meta C cfg s l r hf hp hr (hclean l (by simp))
    have hrest := ih { s with mkey := (metaStep ⟨s.mkey, s.meta, s.log⟩ l).mkey,
                              meta := (metaStep ⟨s.mkey, s.meta, s.log⟩ l).meta,
                              log := (metaStep ⟨s.mkey, s.meta, s.log⟩ l).log,
                              consumed := s.consumed + l.length }
      hf (by simp [hp]) (by simp [hr]) (fun x hx => hclean x (by simp [hx]))
    simp only at hrest
    rw [runLines_cons, hstep]
    simp only [List.foldl_cons] at hrest ⊢
    simp [hrest, linesSize_cons, Nat.add_assoc]

theorem step_skip {σ ρ μ : Type} (C : Collab σ ρ μ) (cfg : Cfg) (s : RState σ ρ)
    (l : String) (hfk : s.failkey = true) (hd : startsDollars l = false) :
    step C cfg s l = ({ s with consumed := s.consumed + l.length }, []) := by
  simp [step, hfk, hd]

theorem run_skip {σ ρ μ : Type} (C : Collab σ ρ μ) (cfg : Cfg) (s : RState σ ρ)
    (ls : List String) (hfk : s.failkey = true)
    (hclean : ∀ l ∈ ls, startsDollars l = false) :
    runLines C cfg s ls = ({ s with consumed := s.consumed + linesSize ls }, []) := by
  induction ls generalizing s with
  | nil => simp [runLines, linesSize]
  | cons l ls ih =>
    have hstep := step_skip C cfg s l hfk (hclean l (by simp))
    have hrest := ih { s with consumed := s.consumed + l.length }
      hfk (fun x hx => hclean x (by simp [hx]))
    simp only at hrest
    rw [runLines_cons, hstep]
    simp [hrest, linesSize_cons, Nat.add_assoc]

theorem step_delim_none {σ ρ μ : Type} (C : Collab σ ρ μ) (cfg : Cfg) (s : RState σ ρ)
    (hp : s.parser = none) (hr : s.record = none) :
    step C cfg s delimLine =
      ({ s with pos := if cfg.seekable then some (s.consumed + delimLine.length) else s.pos,
                count := s.count + 1, im := 3, failkey := false, mkey := "", meta := [],
                consumed := s.consumed + delimLine.length }, []) := by
  have hd : startsDollars delimLine = true := by decide
  simp [step, finalizeRecord, hp, hr, hd]

theorem step_delim_mol {σ ρ μ : Type} (C : Collab σ ρ μ) (cfg : Cfg) (s : RState σ ρ)
    (r : MolRec ρ) (m : μ) (hp : s.parser = none) (hr : s.record = some r)
    (hcv : C.convert (collapseRec r s.meta s.title) = some m) :
    step C cfg s delimLine =
      ({ s with record := none, log := [],
                pos := if cfg.seekable then some (s.consumed + delimLine.length) else s.pos,
                count := s.count + 1, im := 3, failkey := false, mkey := "", meta := [],
                consumed := s.consumed + delimLine.length },
       [Output.mol (attachLog C cfg s.log m)]) := by
  have hd : startsDollars delimLine = true := by decide
  simp [step, finalizeRecord, hp, hr, hd, hcv]

theorem step_delim_err {σ ρ μ : Type} (C : Collab σ ρ μ) (cfg : Cfg) (s : RState σ ρ)
    (r : MolRec ρ) (hp : s.parser = none) (hr : s.record = some r)
    (hcv : C.convert (collapseRec r s.meta s.title) = none) :
    step C cfg s delimLine =
      ({ s with record := none, log := [],
                pos := if cfg.seekable then some (s.consumed + delimLine.length) else s.pos,
                count := s.count + 1, im := 3, failkey := false, mkey := "", meta := [],
                consumed := s.consumed + delimLine.length },
       [Output.err s.count s.pos (fmtLog (s.log ++ [msgRecordErr]))
          (collapseRec r s.meta s.title).meta]) := by
  have hd : startsDollars delimLine = true := by decide
  simp [step, finalizeRecord, hp, hr, hd, hcv]

theorem run_partial {σ ρ μ : Type} (C : Collab σ ρ μ) (cfg : Cfg)
    (d : RecDesc) (p pF : σ) (lg : List String)
    (title : String) (pos : Option Nat) (count consumed : Nat)
    (h1 : startsDollars d.l1 = false) (h2 : startsDollars d.l2 = false)
    (h3 : startsDollars d.l3 = false) (h4 : startsDollars d.counts = false)
    (hm : ∀ l ∈ d.metaLines, startsDollars l = false)
    (hip : initParserR C cfg d.counts = some (p, lg))
    (hrb : runBlock C p d.block = some pF) :
    runLines C cfg (freshSt σ ρ title pos count consumed) (renderNoDelim d) =
      (⟨0, false, (metaAccum0 d.metaLines).mkey, none,
        some ⟨(C.getvalue pF).1, (C.getvalue pF).2, none⟩, pyStrip d.l1,
        (metaAccum0 d.metaLines).meta, pos, count,
        lg ++ (metaAccum0 d.metaLines).log,
        consumed + linesSize (renderNoDelim d)⟩, []) := by
  have hren : renderNoDelim d
      = d.l1 :: d.l2 :: d.l3 :: d.counts :: (d.block ++ d.metaLines) := by
    simp [renderNoDelim]
  rw [hren]
  rw [runLines_cons, step_title C cfg _ d.l1 rfl rfl rfl rfl h1]
  simp only [freshSt]
  rw [runLines_cons, step_skipline C cfg _ d.l2 rfl rfl rfl (Or.inl rfl) h2]
  simp only
  rw [runLines_cons, step_skipline C cfg _ d.l3 rfl rfl rfl (Or.inr rfl) h3]
  simp only
  rw [runLines_cons, step_counts C cfg _ d.counts p lg rfl rfl rfl rfl h4 hip]
  simp only
  rw [runLines_append]
  rw [run_block C cfg _ p pF d.block rfl rfl hrb]
  simp only
  rw [runLines_metaPhase C cfg _ d.metaLines ⟨(C.getvalue pF).1, (C.getvalue pF).2, none⟩
      rfl rfl rfl hm]
  simp only
  rw [foldl_metaStep_log]
  simp only [metaAccum0, List.nil_append]
  refine Prod.ext ?_ rfl
  simp only [RState.mk.injEq, linesSize, hren, List.map_cons, List.map_append,
    List.sum_cons, List.sum_append, true_and, and_true]
  omega

theorem render_eq (d : RecDesc) : render d = renderNoDelim d ++ [delimLine] := rfl

theorem linesSize_render (d : RecDesc) :
    linesSize (render d) = linesSize (renderNoDelim d) + delimLine.length := by
  simp [render, linesSize]

theorem finalRecOf_eq {σ ρ μ : Type} (C : Collab σ ρ μ) (cfg : Cfg) (d : RecDesc)
    (p pF : σ) (lg : List String)
    (hip : initParserR C cfg d.counts = some (p, lg))
    (hrb : runBlock C p d.block = some pF) :
    finalRecOf C cfg d =
      some (collapseRec ⟨(C.getvalue pF).1, (C.getvalue pF).2, none⟩
        (metaAccum0 d.metaLines).meta (pyStrip d.l1)) := by
  simp [finalRecOf, blockParse, hip, hrb]

theorem recLog_eq {σ ρ μ : Type} (C : Collab σ ρ μ) (cfg : Cfg) (d : RecDesc)
    (p : σ) (lg : List String)
    (hip : initParserR C cfg d.counts = some (p, lg)) :
    recLog C cfg d = lg ++ (metaAccum0 d.metaLines).log := by
  simp [recLog, hip]

theorem run_record_mol {σ ρ μ : Type} (C : Collab σ ρ μ) (cfg : Cfg)
    (d : RecDesc) (p pF : σ) (lg : List String) (m : μ)
    (title : String) (pos : Option Nat) (count consumed : Nat)
    (h1 : startsDollars d.l1 = false) (h2 : startsDollars d.l2 = false)
    (h3 : startsDollars d.l3 = false) (h4 : startsDollars d.counts = false)
    (hm : ∀ l ∈ d.metaLines, startsDollars l = false)
    (hip : initParserR C cfg d.counts = some (p, lg))
    (hrb : runBlock C p d.block = some pF)
    (hcv : C.convert (collapseRec ⟨(C.getvalue pF).1, (C.getvalue pF).2, none⟩
             (metaAccum0 d.metaLines).meta (pyStrip d.l1)) = some m) :
    runLines C cfg (freshSt σ ρ title pos count consumed) (render d) =
      (freshSt σ ρ (pyStrip d.l1)
         (if cfg.seekable then some (consumed + linesSize (render d)) else pos)
         (count + 1) (consumed + linesSize (render d)),
       [Output.mol (attachLog C cfg (lg ++ (metaAccum0 d.metaLines).log) m)]) := by
  rw [render_eq, runLines_append,
      run_partial C cfg d p pF lg title pos count consumed h1 h2 h3 h4 hm hip hrb]
  simp only
  rw [runLines_cons,
      step_delim_mol C cfg _ ⟨(C.getvalue pF).1, (C.getvalue pF).2, none⟩ m rfl rfl hcv]
  simp only [runLines]
  have hsz : linesSize (renderNoDelim d ++ [delimLine])
      = linesSize (renderNoDelim d) + delimLine.length := by simp [linesSize]
  rw [hsz]
  simp [freshSt, Nat.add_assoc]

theorem run_record_err {σ ρ μ : Type} (C : Collab σ ρ μ) (cfg : Cfg)
    (d : RecDesc) (p pF : σ) (lg : List String)
    (title : String) (pos : Option Nat) (count consumed : Nat)
    (h1 : startsDollars d.l1 = false) (h2 : startsDollars d.l2 = false)
    (h3 : startsDollars d.l3 = false) (h4 : startsDollars d.counts = false)
    (hm : ∀ l ∈ d.metaLines, startsDollars l = false)
    (hip : initParserR C cfg d.counts = some (p, lg))
    (hrb : runBlock C p d.block = some pF)
    (hcv : C.convert (collapseRec ⟨(C.getvalue pF).1, (C.getvalue pF).2, none⟩
             (metaAccum0 d.metaLines).meta (pyStrip d.l1)) = none) :
    runLines C cfg (freshSt σ ρ title pos count consumed) (render d) =
      (freshSt σ ρ (pyStrip d.l1)
         (if cfg.seekable then some (consumed + linesSize (render d)) else pos)
         (count + 1) (consumed + linesSize (render d)),
       [Output.err count pos
          (fmtLog ((lg ++ (metaAccum0 d.metaLines).log) ++ [msgRecordErr]))
          (collapseRec ⟨(C.getvalue pF).1, (C.getvalue pF).2, none⟩
             (metaAccum0 d.metaLines).meta (pyStrip d.l1)).meta]) := by
  rw [render_eq, runLines_append,
      run_partial C cfg d p pF lg title pos count consumed h1 h2 h3 h4 hm hip hrb]
  simp only
  rw [runLines_cons,
      step_delim_err C cfg _ ⟨(C.getvalue pF).1, (C.getvalue pF).2, none⟩ rfl rfl hcv]
  simp only [runLines]
  have hsz : linesSize (renderNoDelim d ++ [delimLine])
      = linesSize (renderNoDelim d) + delimLine.length := by simp [linesSize]
  rw [hsz]
  simp [freshSt, Nat.add_assoc]

theorem run_bad_record {σ ρ μ : Type} (C : Collab σ ρ μ) (cfg : Cfg)
    (bad : RecDesc) (title : String) (pos : Option Nat) (count consumed : Nat)
    (h1 : startsDollars bad.l1 = false) (h2 : startsDollars bad.l2 = false)
    (h3 : startsDollars bad.l3 = false) (h4 : startsDollars bad.counts = false)
    (hbm : ∀ l ∈ bad.block ++ bad.metaLines, startsDollars l = false)
    (hip : initParserR C cfg bad.counts = none) :
    runLines C cfg (freshSt σ ρ title pos count consumed) (render bad) =
      (freshSt σ ρ (pyStrip bad.l1)
         (if cfg.seekable then some (consumed + linesSize (render bad)) else pos)
         (count + 1) (consumed + linesSize (render bad)),
       [Output.err count pos (fmtLog [msgLineErr bad.counts]) []]) := by
  have hren : render bad
      = bad.l1 :: bad.l2 :: bad.l3 :: bad.counts ::
        ((bad.block ++ bad.metaLines) ++ [delimLine]) := by
    simp [render, renderNoDelim]
  rw [hren]
  rw [runLines_cons, step_title C cfg _ bad.l1 rfl rfl rfl rfl h1]
  simp only [freshSt]
  rw [runLines_cons, step_skipline C cfg _ bad.l2 rfl rfl rfl (Or.inl rfl) h2]
  simp only
  rw [runLines_cons, step_skipline C cfg _ bad.l3 rfl rfl rfl (Or.inr rfl) h3]
  simp only
  rw [runLines_cons, step_counts_fail C cfg _ bad.counts rfl rfl rfl rfl h4 hip]
  simp only
  rw [runLines_append]
  rw [run_skip C cfg _ (bad.block ++ bad.metaLines) rfl hbm]
  simp only
  rw [runLines_cons, step_delim_none C cfg _ rfl rfl]
  simp only [runLines]
  rw [hren] at *
  refine Prod.ext ?_ (by simp)
  simp only [freshSt, RState.mk.injEq, true_and, and_true, linesSize, List.map_cons,
    List.map_append, List.sum_cons, List.sum_append, List.map_nil, List.sum_nil]
  constructor
  · split <;> simp <;> omega
  · omega

theorem run_feedfail_record {σ ρ μ : Type} (C : Collab σ ρ μ) (cfg : Cfg)
    (d : RecDesc) (p p' : σ) (lg : List String)
    (pre : List String) (bl : String) (post : List String)
    (title : String) (pos : Option Nat) (count consumed : Nat)
    (h1 : startsDollars d.l1 = false) (h2 : startsDollars d.l2 = false)
    (h3 : startsDollars d.l3 = false) (h4 : startsDollars d.counts = false)
    (hsplit : d.block = pre ++ bl :: post)
    (hip : initParserR C cfg d.counts = some (p, lg))
    (hopen : runBlockOpen C p pre = some p')
    (hfail : C.feed p' bl = none)
    (hcln : ∀ l ∈ post ++ d.metaLines, startsDollars l = false) :
    runLines C cfg (freshSt σ ρ title pos count consumed) (render d) =
      (freshSt σ ρ (pyStrip d.l1)
         (if cfg.seekable then some (consumed + linesSize (render d)) else pos)
         (count + 1) (consumed + linesSize (render d)),
       [Output.err count pos (fmtLog (lg ++ [msgLineErr bl])) []]) := by
  have hren : render d
      = d.l1 :: d.l2 :: d.l3 :: d.counts ::
        (pre ++ (bl :: ((post ++ d.metaLines) ++ [delimLine]))) := by
    simp [render, renderNoDelim, hsplit]
  rw [hren]
  rw [runLines_cons, step_title C cfg _ d.l1 rfl rfl rfl rfl h1]
  simp only [freshSt]
  rw [runLines_cons, step_skipline C cfg _ d.l2 rfl rfl rfl (Or.inl rfl) h2]
  simp only
  rw [runLines_cons, step_skipline C cfg _ d.l3 rfl rfl rfl (Or.inr rfl) h3]
  simp only
  rw [runLines_cons, step_counts C cfg _ d.counts p lg rfl rfl rfl rfl h4 hip]
  simp only
  rw [runLines_append]
  rw [run_block_open C cfg _ p p' pre rfl rfl hopen]
  simp only
  rw [runLines_cons, step_feed_fail C cfg _ bl p' rfl rfl hfail]
  simp only
  rw [runLines_append]
  rw [run_skip C cfg _ (post ++ d.metaLines) rfl hcln]
  simp only
  rw [runLines_cons, step_delim_none C cfg _ rfl rfl]
  simp only [runLines]
  rw [hren] at *
  refine Prod.ext ?_ (by simp)
  simp only [freshSt, RState.mk.injEq, true_and, and_true, linesSize, List.map_cons,
    List.map_append, List.sum_cons, List.sum_append, List.map_nil, List.sum_nil]
  constructor
  · split <;> simp <;> omega
  · omega

theorem WF_elim {σ ρ μ : Type} (C : Collab σ ρ μ) (cfg : Cfg) (d : RecDesc)
    (h : WF C cfg d = true) :
    startsDollars d.l1 = false ∧ startsDollars d.l2 = false ∧
    startsDollars d.l3 = false ∧ startsDollars d.counts = false ∧
    (∀ l ∈ d.metaLines, startsDollars l = false) ∧
    ∃ p lg pF m,
      initParserR C cfg d.counts = some (p, lg) ∧
      runBlock C p d.block = some pF ∧
      C.convert (collapseRec ⟨(C.getvalue pF).1, (C.getvalue pF).2, none⟩
        (metaAccum0 d.metaLines).meta (pyStrip d.l1)) = some m ∧
      molOf C cfg d = some (attachLog C cfg (lg ++ (metaAccum0 d.metaLines).log) m) := by
  unfold WF at h
  rw [Bool.and_eq_true] at h
  obtain ⟨hflags, hsome⟩ := h
  unfold descFlags cleanLine at hflags
  simp only [Bool.and_eq_true, Bool.not_eq_true', List.all_eq_true] at hflags
  obtain ⟨⟨⟨⟨f1, f2⟩, f3⟩, f4⟩, fm⟩ := hflags
  refine ⟨f1, f2, f3, f4, fun l hl => by simpa using fm l hl, ?_⟩
  rw [Option.isSome_iff_exists] at hsome
  obtain ⟨m0, hm0⟩ := hsome
  unfold molOf finalRecOf blockParse at hm0
  cases hip : initParserR C cfg d.counts with
  | none => rw [hip] at hm0; simp at hm0
  | some plg =>
    rw [hip] at hm0
    simp only [Option.some_bind] at hm0
    cases hrb : runBlock C plg.1 d.block with
    | none => rw [hrb] at hm0; simp at hm0
    | some pF =>
      rw [hrb] at hm0
      simp only [Option.map_some', Option.some_bind] at hm0
      cases hcv : C.convert (collapseRec ⟨(C.getvalue pF).1, (C.getvalue pF).2, none⟩
          (metaAccum0 d.metaLines).meta (pyStrip d.l1)) with
      | none => rw [hcv] at hm0; simp at hm0
      | some m =>
        refine ⟨plg.1, plg.2, pF, m, by simpa using hip, hrb, hcv, ?_⟩
        have hrl : recLog C cfg d = plg.2 ++ (metaAccum0 d.metaLines).log :=
          recLog_eq C cfg d plg.1 plg.2 (by simpa using hip)
        unfold molOf finalRecOf blockParse
        rw [hip]
        simp only [Option.some_bind]
        rw [hrb]
        simp [hcv, hrl]

theorem run_wf_list {σ ρ μ : Type} [Inhabited μ] (C : Collab σ ρ μ) (cfg : Cfg)
    (ds : List RecDesc) (title : String) (count consumed : Nat)
    (hwf : ∀ d ∈ ds, WF C cfg d = true) :
    ∃ title2,
      runLines C cfg
        (freshSt σ ρ title (if cfg.seekable then some consumed else none) count consumed)
        (ds.flatMap render) =
      (freshSt σ ρ title2
         (if cfg.seekable then some (consumed + linesSize (ds.flatMap render)) else none)
         (count + ds.length) (consumed + linesSize (ds.flatMap render)),
       ds.map (fun d => Output.mol ((molOf C cfg d).iget))) := by
  induction ds generalizing title count consumed with
  | nil => exact ⟨title, by simp [runLines, linesSize]⟩
  | cons d ds ih =>
    obtain ⟨f1, f2, f3, f4, fm, p, lg, pF, m, hip, hrb, hcv, hmol⟩ :=
      WF_elim C cfg d (hwf d (by simp))
    have hrec := run_record_mol C cfg d p pF lg m title
      (if cfg.seekable then some consumed else none) count consumed
      f1 f2 f3 f4 fm hip hrb hcv
    obtain ⟨t2, hrest⟩ := ih (pyStrip d.l1) (count + 1) (consumed + linesSize (render d))
      (fun x hx => hwf x (by simp [hx]))
    refine ⟨t2, ?_⟩
    rw [show (d :: ds).flatMap render = render d ++ ds.flatMap render from rfl,
        runLines_append, hrec]
    have hpos : (if cfg.seekable = true then some (consumed + linesSize (render d))
        else (if cfg.seekable = true then some consumed else none))
        = (if cfg.seekable = true then some (consumed + linesSize (render d)) else none) := by
      by_cases hs : cfg.seekable = true <;> simp [hs]
    simp only [hpos]
    rw [hrest]
    have e1 : consumed + linesSize (render d) + linesSize (ds.flatMap render)
        = consumed + linesSize ((d :: ds).flatMap render) := by
      rw [show (d :: ds).flatMap render = render d ++ ds.flatMap render from rfl,
          linesSize_append]
      omega
    have e2 : count + 1 + ds.length = count + (d :: ds).length := by
      simp [List.length_cons]
      omega
    rw [e1, e2]
    simp [hmol]

/-- C1: for every well-formed file containing `R` records, driving the
record stream to completion yields exactly `R` outputs, each a converted
domain object and none a `parse_error`, in file order (the `i`-th output is
the conversion of the `i`-th record). -/
theorem claim_C1_wellformed_file_order {σ ρ μ : Type} [Inhabited μ]
    (C : Collab σ ρ μ) (cfg : Cfg) (ds : List RecDesc)
    (hwf : ∀ d ∈ ds, WF C cfg d = true) :
    sdfOutputs C cfg (ds.flatMap render) =
      ds.map (fun d => Output.mol ((molOf C cfg d).iget)) := by
  have hini : initState cfg σ ρ
      = freshSt σ ρ "" (if cfg.seekable then some 0 else none) 0 0 := rfl
  obtain ⟨t2, hrun⟩ := run_wf_list C cfg ds "" 0 0 hwf
  unfold sdfOutputs
  rw [hini, hrun]
  simp [finish, finalizeRecord, freshSt]

/-- Witness for C1 at a concrete two-record file. -/
theorem claim_C1_witness :
    (∀ d ∈ [dA, dB], WF TestC testCfg d = true) ∧
    sdfOutputs TestC testCfg ([dA, dB].flatMap render) =
      [dA, dB].map (fun d => Output.mol ((molOf TestC testCfg d).iget)) :=
  ⟨by decide, claim_C1_wellformed_file_order TestC testCfg [dA, dB] (by decide)⟩

theorem collapseRec_meta {ρ : Type} (r : MolRec ρ) (meta : List (String × List String))
    (title : String) :
    (collapseRec r meta title).meta = dictUpdate r.meta (prepareMeta meta) := by
  unfold collapseRec
  split <;> rfl

theorem dictSet_append {α : Type} (m : List (String × α)) (k : String) (v : α)
    (h : k ∉ m.map Prod.fst) : dictSet m k v = m ++ [(k, v)] := by
  induction m with
  | nil => simp [dictSet]
  | cons kv m ih =>
    simp only [List.map_cons, List.mem_cons] at h
    push_neg at h
    simp [dictSet, Ne.symm h.1, ih h.2]

theorem dictUpdate_append {α : Type} (e m : List (String × α))
    (hdisj : ∀ k ∈ e.map Prod.fst, k ∉ m.map Prod.fst)
    (hnodup : (e.map Prod.fst).Nodup) :
    dictUpdate m e = m ++ e := by
  induction e generalizing m with
  | nil => simp [dictUpdate]
  | cons kv e ih =>
    simp only [List.map_cons, List.nodup_cons] at hnodup
    have hset : dictSet m kv.1 kv.2 = m ++ [kv] := by
      rw [dictSet_append m kv.1 kv.2 (hdisj kv.1 (by simp))]
    unfold dictUpdate
    simp only [List.foldl_cons]
    rw [hset]
    have := ih (m ++ [kv])
      (by
        intro k hk
        simp only [List.map_append, List.mem_append, List.map_cons] at *
        push_neg
        refine ⟨hdisj k (by simp [hk]), ?_⟩
        simp only [List.map_nil, List.mem_cons, List.not_mem_nil]
        rintro (hkk | hfalse)
        · exact hnodup.1 (hkk ▸ hk)
        · exact hfalse)
      hnodup.2
    unfold dictUpdate at this
    rw [this]
    simp

theorem dictUpdate_nil {α : Type} (e : List (String × α))
    (hnodup : (e.map Prod.fst).Nodup) : dictUpdate [] e = e := by
  rw [dictUpdate_append e [] (by simp) hnodup]
  simp

theorem prepareMeta_keys (m : List (String × List String)) :
    (prepareMeta m).map Prod.fst = m.map Prod.fst := by
  simp [prepareMeta, List.map_map]

theorem mdAppend_keys (m : List (String × List String)) (k v : String) :
    (mdAppend m k v).map Prod.fst =
      if k ∈ m.map Prod.fst then m.map Prod.fst else m.map Prod.fst ++ [k] := by
  induction m with
  | nil => simp [mdAppend]
  | cons kv m ih =>
    by_cases hk : kv.1 = k
    · simp [mdAppend, hk]
    · simp only [mdAppend, if_neg hk, List.map_cons, ih]
      by_cases hmem : k ∈ m.map Prod.fst
      · simp [hmem, Ne.symm hk]
      · simp [hmem, Ne.symm hk]

theorem mdAppend_keys_nodup (m : List (String × List String)) (k v : String)
    (h : (m.map Prod.fst).Nodup) : ((mdAppend m k v).map Prod.fst).Nodup := by
  rw [mdAppend_keys]
  by_cases hmem : k ∈ m.map Prod.fst
  · simpa [hmem]
  · simp only [hmem, if_false]
    rw [List.nodup_append]
    exact ⟨h, List.nodup_singleton k, by simpa [List.disjoint_singleton] using hmem⟩

theorem metaAccum_meta_nodup (ls : List String) (a : MetaAcc)
    (h : (a.meta.map Prod.fst).Nodup) :
    (((ls.foldl metaStep a).meta).map Prod.fst).Nodup := by
  induction ls generalizing a with
  | nil => exact h
  | cons l ls ih =>
    apply ih
    unfold metaStep
    cases hm : headMatch l with
    | some g => by_cases hk : pyStrip g = "" <;> simpa [hm, hk]
    | none =>
      by_cases hk : a.mkey = ""
      · simpa [hm, hk]
      · by_cases hd : pyStrip l = ""
        · simpa [hm, hk, hd]
        · simpa [hm, hk, hd] using mdAppend_keys_nodup a.meta a.mkey (pyStrip l) h

theorem metaAccum0_nodup (ls : List String) :
    (((metaAccum0 ls).meta).map Prod.fst).Nodup :=
  metaAccum_meta_nodup ls ⟨"", [], []⟩ (by simp)

theorem collapseRec_meta_empty {ρ : Type} (core : ρ) (ls : List String) (title : String) :
    (collapseRec ⟨core, [], none⟩ (metaAccum0 ls).meta title).meta
      = prepareMeta (metaAccum0 ls).meta := by
  rw [collapseRec_meta]
  exact dictUpdate_nil _ (by rw [prepareMeta_keys]; exact metaAccum0_nodup ls)

/-- C2: for every failing record the `parse_error` yielded carries the
record index at the failure, the byte offset of the start of that record
(the total size of the preceding records; `none` when the source is not
seekable), the formatted diagnostic log captured for that record, and the
metadata accumulated for that record up to the failure point.  Both
failure classes of the claim are covered in one file: a record whose
structural block parsing fails mid-feed (the `except ValueError` around
`parser(line)`; no metadata can have accumulated before the block
completes, so the accumulated mapping is empty) followed by a structurally
complete record whose conversion fails (the payload is its collapsed
accumulated metadata). -/
theorem claim_C2_parse_error_payload {σ ρ μ : Type} [Inhabited μ]
    (C : Collab σ ρ μ) (cfg : Cfg) (ds : List RecDesc) (dfeed dbad : RecDesc)
    (p1 p1' : σ) (lg1 : List String)
    (pre : List String) (bl : String) (post : List String)
    (p pF : σ) (lg : List String)
    (hwf : ∀ x ∈ ds, WF C cfg x = true)
    (g1 : startsDollars dfeed.l1 = false) (g2 : startsDollars dfeed.l2 = false)
    (g3 : startsDollars dfeed.l3 = false) (g4 : startsDollars dfeed.counts = false)
    (hsplit : dfeed.block = pre ++ bl :: post)
    (hip1 : initParserR C cfg dfeed.counts = some (p1, lg1))
    (hopen : runBlockOpen C p1 pre = some p1')
    (hfail : C.feed p1' bl = none)
    (hcln : ∀ l ∈ post ++ dfeed.metaLines, startsDollars l = false)
    (h1 : startsDollars dbad.l1 = false) (h2 : startsDollars dbad.l2 = false)
    (h3 : startsDollars dbad.l3 = false) (h4 : startsDollars dbad.counts = false)
    (hm : ∀ l ∈ dbad.metaLines, startsDollars l = false)
    (hip : initParserR C cfg dbad.counts = some (p, lg))
    (hrb : runBlock C p dbad.block = some pF)
    (hm0 : (C.getvalue pF).2 = [])
    (hcv : C.convert (collapseRec ⟨(C.getvalue pF).1, (C.getvalue pF).2, none⟩
             (metaAccum0 dbad.metaLines).meta (pyStrip dbad.l1)) = none) :
    sdfOutputs C cfg (ds.flatMap render ++ (render dfeed ++ render dbad)) =
      ds.map (fun x => Output.mol ((molOf C cfg x).iget)) ++
      [Output.err ds.length
         (if cfg.seekable then some (linesSize (ds.flatMap render)) else none)
         (fmtLog (lg1 ++ [msgLineErr bl])) [],
       Output.err (ds.length + 1)
         (if cfg.seekable
            then some (linesSize (ds.flatMap render) + linesSize (render dfeed))
            else none)
         (fmtLog ((lg ++ (metaAccum0 dbad.metaLines).log) ++ [msgRecordErr]))
         (prepareMeta (metaAccum0 dbad.metaLines).meta)] := by
  have hini : initState cfg σ ρ
      = freshSt σ ρ "" (if cfg.seekable then some 0 else none) 0 0 := rfl
  obtain ⟨t2, hrun⟩ := run_wf_list C cfg ds "" 0 0 hwf
  unfold sdfOutputs
  rw [hini, runLines_append, hrun, runLines_append]
  have hfeedrec := run_feedfail_record C cfg dfeed p1 p1' lg1 pre bl post t2
    (if cfg.seekable then some (0 + linesSize (ds.flatMap render)) else none)
    (0 + ds.length) (0 + linesSize (ds.flatMap render))
    g1 g2 g3 g4 hsplit hip1 hopen hfail hcln
  rw [hfeedrec]
  have hbadrec := run_record_err C cfg dbad p pF lg (pyStrip dfeed.l1)
    (if cfg.seekable
       then some (0 + linesSize (ds.flatMap render) + linesSize (render dfeed))
       else (if cfg.seekable then some (0 + linesSize (ds.flatMap render)) else none))
    (0 + ds.length + 1) (0 + linesSize (ds.flatMap render) + linesSize (render dfeed))
    h1 h2 h3 h4 hm hip hrb hcv
  rw [hbadrec]
  have hmeta : (collapseRec ⟨(C.getvalue pF).1, (C.getvalue pF).2, none⟩
      (metaAccum0 dbad.metaLines).meta (pyStrip dbad.l1)).meta
      = prepareMeta (metaAccum0 dbad.metaLines).meta := by
    rw [hm0]
    exact collapseRec_meta_empty (C.getvalue pF).1 dbad.metaLines (pyStrip dbad.l1)
  by_cases hs : cfg.seekable = true <;>
    simp [hs, finish, finalizeRecord, freshSt, hmeta]

/-- Witness for C2: after one good record, the record whose block feed
fails yields a `parse_error` with index 1, the byte offset of its start,
the failing-line log and empty metadata; the following record that fails
conversion yields a `parse_error` with index 2, the byte offset of its own
start, the captured log and its accumulated metadata. -/
theorem claim_C2_witness :
    sdfOutputs TestC testCfg ([dA].flatMap render ++ (render dFeed ++ render dBad)) =
      [dA].map (fun x => Output.mol ((molOf TestC testCfg x).iget)) ++
      [Output.err 1
         (if testCfg.seekable then some (linesSize ([dA].flatMap render)) else none)
         (fmtLog ([] ++ [msgLineErr "FAILLINE\n"])) [],
       Output.err 2
         (if testCfg.seekable
            then some (linesSize ([dA].flatMap render) + linesSize (render dFeed))
            else none)
         (fmtLog (([] ++ (metaAccum0 dBad.metaLines).log) ++ [msgRecordErr]))
         (prepareMeta (metaAccum0 dBad.metaLines).meta)] :=
  claim_C2_parse_error_payload TestC testCfg [dA] dFeed dBad
    (2, []) (1, ["f1\n"]) [] ["f1\n"] "FAILLINE\n" ["junk\n"]
    (2, []) (0, ["b1\n", "b2\n"]) []
    (by decide)
    (by decide) (by decide) (by decide) (by decide)
    rfl (by decide) (by decide) (by decide)
    (by intro l hl; fin_cases hl <;> decide)
    (by decide) (by decide) (by decide) (by decide)
    (by intro l hl; fin_cases hl <;> decide)
    (by decide) (by decide) (by decide) (by decide)

/-- C6: a malformed record (its counts line carries neither format marker)
between two well-formed ones yields `[object, parse_error, object]`: after
the failure the stream silently discards lines until the next delimiter
and then resumes normal parsing, without terminating. -/
theorem claim_C6_recovery {σ ρ μ : Type} [Inhabited μ] (C : Collab σ ρ μ) (cfg : Cfg)
    (d0 bad d2 : RecDesc)
    (h0 : WF C cfg d0 = true) (h2 : WF C cfg d2 = true)
    (hb1 : startsDollars bad.l1 = false) (hb2 : startsDollars bad.l2 = false)
    (hb3 : startsDollars bad.l3 = false) (hb4 : startsDollars bad.counts = false)
    (hbm : ∀ l ∈ bad.block ++ bad.metaLines, startsDollars l = false)
    (hip : initParserR C cfg bad.counts = none) :
    sdfOutputs C cfg (render d0 ++ (render bad ++ render d2)) =
      [Output.mol ((molOf C cfg d0).iget),
       Output.err 1 (if cfg.seekable then some (linesSize (render d0)) else none)
         (fmtLog [msgLineErr bad.counts]) [],
       Output.mol ((molOf C cfg d2).iget)] := by
  obtain ⟨f01, f02, f03, f04, f0m, p0, lg0, pF0, m0, hip0, hrb0, hcv0, hmol0⟩ :=
    WF_elim C cfg d0 h0
  obtain ⟨f21, f22, f23, f24, f2m, p2, lg2, pF2, m2, hip2, hrb2, hcv2, hmol2⟩ :=
    WF_elim C cfg d2 h2
  have hini : initState cfg σ ρ
      = freshSt σ ρ "" (if cfg.seekable then some 0 else none) 0 0 := rfl
  unfold sdfOutputs
  rw [hini, runLines_append,
      run_record_mol C cfg d0 p0 pF0 lg0 m0 "" (if cfg.seekable then some 0 else none)
        0 0 f01 f02 f03 f04 f0m hip0 hrb0 hcv0]
  have hpos1 : (if cfg.seekable = true then some (0 + linesSize (render d0))
      else (if cfg.seekable = true then some 0 else none))
      = (if cfg.seekable = true then some (0 + linesSize (render d0)) else none) := by
    by_cases hs : cfg.seekable = true <;> simp [hs]
  simp only [hpos1]
  rw [runLines_append,
      run_bad_record C cfg bad (pyStrip d0.l1)
        (if cfg.seekable = true then some (0 + linesSize (render d0)) else none)
        (0 + 1) (0 + linesSize (render d0)) hb1 hb2 hb3 hb4 hbm hip]
  have hpos2 : (if cfg.seekable = true
        then some (0 + linesSize (render d0) + linesSize (render bad))
        else (if cfg.seekable = true then some (0 + linesSize (render d0)) else none))
      = (if cfg.seekable = true
         then some (0 + linesSize (render d0) + linesSize (render bad)) else none) := by
    by_cases hs : cfg.seekable = true <;> simp [hs]
  simp only [hpos2]
  rw [run_record_mol C cfg d2 p2 pF2 lg2 m2 (pyStrip bad.l1)
        (if cfg.seekable = true
         then some (0 + linesSize (render d0) + linesSize (render bad)) else none)
        (0 + 1 + 1) (0 + linesSize (render d0) + linesSize (render bad))
        f21 f22 f23 f24 f2m hip2 hrb2 hcv2]
  simp [finish, finalizeRecord, freshSt, hmol0, hmol2]

/-- Witness for C6 at a concrete three-record file. -/
theorem claim_C6_witness :
    sdfOutputs TestC testCfg (render dA ++ (render dNoMark ++ render dB)) =
      [Output.mol ((molOf TestC testCfg dA).iget),
       Output.err 1 (if testCfg.seekable then some (linesSize (render dA)) else none)
         (fmtLog [msgLineErr dNoMark.counts]) [],
       Output.mol ((molOf TestC testCfg dB).iget)] :=
  claim_C6_recovery TestC testCfg dA dNoMark dB (by decide) (by decide)
    (by decide) (by decide) (by decide) (by decide)
    (by intro l hl; fin_cases hl <;> decide) (by decide)

/-- C7: a file that ends without a trailing delimiter still finalizes the
record in progress at end of input exactly as a delimiter would have: its
converted object (or, on conversion failure, a `parse_error` carrying the
accumulated metadata) is yielded before end-of-stream. -/
theorem claim_C7_missing_trailing_delimiter {σ ρ μ : Type} [Inhabited μ]
    (C : Collab σ ρ μ) (cfg : Cfg) (ds : List RecDesc) (d : RecDesc)
    (p pF : σ) (lg : List String)
    (hwf : ∀ x ∈ ds, WF C cfg x = true)
    (h1 : startsDollars d.l1 = false) (h2 : startsDollars d.l2 = false)
    (h3 : startsDollars d.l3 = false) (h4 : startsDollars d.counts = false)
    (hm : ∀ l ∈ d.metaLines, startsDollars l = false)
    (hip : initParserR C cfg d.counts = some (p, lg))
    (hrb : runBlock C p d.block = some pF) :
    sdfOutputs C cfg (ds.flatMap render ++ renderNoDelim d) =
      ds.map (fun x => Output.mol ((molOf C cfg x).iget)) ++
      [match C.convert (collapseRec ⟨(C.getvalue pF).1, (C.getvalue pF).2, none⟩
          (metaAccum0 d.metaLines).meta (pyStrip d.l1)) with
       | some m => Output.mol (attachLog C cfg (lg ++ (metaAccum0 d.metaLines).log) m)
       | none => Output.err ds.length
           (if cfg.seekable then some (linesSize (ds.flatMap render)) else none)
           (fmtLog ((lg ++ (metaAccum0 d.metaLines).log) ++ [msgRecordErr]))
           (collapseRec ⟨(C.getvalue pF).1, (C.getvalue pF).2, none⟩
              (metaAccum0 d.metaLines).meta (pyStrip d.l1)).meta] := by
  have hini : initState cfg σ ρ
      = freshSt σ ρ "" (if cfg.seekable then some 0 else none) 0 0 := rfl
  obtain ⟨t2, hrun⟩ := run_wf_list C cfg ds "" 0 0 hwf
  unfold sdfOutputs
  rw [hini, runLines_append, hrun,
      run_partial C cfg d p pF lg t2
        (if cfg.seekable then some (0 + linesSize (ds.flatMap render)) else none)
        (0 + ds.length) (0 + linesSize (ds.flatMap render)) h1 h2 h3 h4 hm hip hrb]
  cases hcv : C.convert (collapseRec ⟨(C.getvalue pF).1, (C.getvalue pF).2, none⟩
      (metaAccum0 d.metaLines).meta (pyStrip d.l1)) with
  | some m => simp [finish, finalizeRecord, hcv]
  | none => simp [finish, finalizeRecord, hcv]

/-- Witness for C7: one well-formed record followed by a complete record
with no trailing delimiter; both objects are produced. -/
theorem claim_C7_witness :
    sdfOutputs TestC testCfg ([dA].flatMap render ++ renderNoDelim dB) =
      [dA].map (fun x => Output.mol ((molOf TestC testCfg x).iget)) ++
      [match TestC.convert (collapseRec
          ⟨(TestC.getvalue (0, ["x\n", "y\n", "z\n"])).1,
           (TestC.getvalue (0, ["x\n", "y\n", "z\n"])).2, none⟩
          (metaAccum0 dB.metaLines).meta (pyStrip dB.l1)) with
       | some m => Output.mol (attachLog TestC testCfg
           ([] ++ (metaAccum0 dB.metaLines).log) m)
       | none => Output.err 1
           (if testCfg.seekable then some (linesSize ([dA].flatMap render)) else none)
           (fmtLog (([] ++ (metaAccum0 dB.metaLines).log) ++ [msgRecordErr]))
           (collapseRec ⟨(TestC.getvalue (0, ["x\n", "y\n", "z\n"])).1,
              (TestC.getvalue (0, ["x\n", "y\n", "z\n"])).2, none⟩
              (metaAccum0 dB.metaLines).meta (pyStrip dB.l1)).meta] :=
  claim_C7_missing_trailing_delimiter TestC testCfg [dA] dB (3, []) (0, ["x\n", "y\n", "z\n"]) []
    (by decide) (by decide) (by decide) (by decide) (by decide)
    (by intro l hl; fin_cases hl <;> decide) (by decide) (by decide)

theorem collapseRec_title {ρ : Type} (r : MolRec ρ)
    (meta : List (String × List String)) (title : String) :
    (collapseRec r meta title).title
      = (if title = "" then r.title else some title) := by
  unfold collapseRec
  by_cases ht : title = "" <;> simp [ht]

/-- C3 (amended): the phase counter starts at 3, and the record title is
the trimmed content of the line read while the counter is still 3 — the
first line of the record — after which the two following header lines are
skipped (counter 2 and 1); at finalization the title is stored into the
record only when it is non-empty, and an empty trimmed title is dropped. -/
theorem claim_C3_amended {σ ρ μ : Type} (C : Collab σ ρ μ) (cfg : Cfg) (d : RecDesc)
    (r : MolRec ρ)
    (h1 : startsDollars d.l1 = false) (h2 : startsDollars d.l2 = false)
    (h3 : startsDollars d.l3 = false)
    (hfr : finalRecOf C cfg d = some r) :
    (initState cfg σ ρ).im = 3 ∧
    (runLines C cfg (initState cfg σ ρ) [d.l1, d.l2, d.l3]).1
      = { initState cfg σ ρ with im := 0, title := pyStrip d.l1,
                                 consumed := d.l1.length + d.l2.length + d.l3.length } ∧
    r.title = (if pyStrip d.l1 = "" then none else some (pyStrip d.l1)) := by
  refine ⟨rfl, ?_, ?_⟩
  · have hini : initState cfg σ ρ
        = freshSt σ ρ "" (if cfg.seekable then some 0 else none) 0 0 := rfl
    rw [hini]
    rw [runLines_cons, step_title C cfg _ d.l1 rfl rfl rfl rfl h1]
    simp only [freshSt]
    rw [runLines_cons, step_skipline C cfg _ d.l2 rfl rfl rfl (Or.inl rfl) h2]
    simp only
    rw [runLines_cons, step_skipline C cfg _ d.l3 rfl rfl rfl (Or.inr rfl) h3]
    simp only [runLines]
    simp [freshSt, initState, Nat.add_assoc]
  · unfold finalRecOf at hfr
    cases hbp : blockParse C cfg d with
    | none => rw [hbp] at hfr; simp at hfr
    | some pF =>
      rw [hbp] at hfr
      simp only [Option.map_some', Option.some_inj] at hfr
      subst hfr
      rw [collapseRec_title]

/-- C3 counterexample: the claim places the title on the third line of the
record (the line seen when the countdown reaches 1) and keeps it even when
empty.  On `dT3`, whose third line trims to `THIRD` and whose first line
trims to the empty string, the stream produces a record with no title at
all — the title is read from the first line and dropped when empty. -/
theorem claim_C3_counterexample :
    sdfOutputs TestC testCfg (render dT3)
      = [Output.mol ⟨["a\n", "b\n"], [], none⟩] ∧
    pyStrip dT3.l3 = "THIRD" ∧
    (Output.mol (⟨["a\n", "b\n"], [], none⟩ : TRec) : Output (List String) TRec)
      ≠ Output.mol ⟨["a\n", "b\n"], [], some "THIRD"⟩ := by decide

/-- Witness for the amended C3 at the concrete record `dA`. -/
theorem claim_C3_witness :
    (initState testCfg (Nat × List String) (List String)).im = 3 ∧
    (runLines TestC testCfg (initState testCfg (Nat × List String) (List String))
        [dA.l1, dA.l2, dA.l3]).1
      = { initState testCfg (Nat × List String) (List String) with
          im := 0, title := pyStrip dA.l1,
          consumed := dA.l1.length + dA.l2.length + dA.l3.length } ∧
    (⟨["a1\n", "a2\n"], [("key1", "v1\nv2")], some "Mol A"⟩ : TRec).title
      = (if pyStrip dA.l1 = "" then none else some (pyStrip dA.l1)) :=
  claim_C3_amended TestC testCfg dA ⟨["a1\n", "a2\n"], [("key1", "v1\nv2")], some "Mol A"⟩
    (by decide) (by decide) (by decide) (by decide)

/-- C9: on a counts line carrying the `V2000` marker whose parser
construction reports an empty molecule: when the stream is configured to
tolerate it (`ignore`), the dispatch retries the record with the lenient
`EMOLRead` parser (logging the retry) and the record is parsed through it;
otherwise the failure is propagated as that record's failure path — a
`parse_error` for the record — and the stream skips to the delimiter. -/
theorem claim_C9_empty_molecule_fallback {σ ρ μ : Type} [Inhabited μ]
    (C : Collab σ ρ μ) (cfg : Cfg) (d : RecDesc)
    (hv : pyContains d.counts "V2000" = true)
    (hem : C.molInit d.counts = Except.error MolInitErr.emptyMolecule)
    (h1 : startsDollars d.l1 = false) (h2 : startsDollars d.l2 = false)
    (h3 : startsDollars d.l3 = false) (h4 : startsDollars d.counts = false)
    (hbm : ∀ l ∈ d.block ++ d.metaLines, startsDollars l = false) :
    (cfg.ignore = true →
      initParserR C cfg d.counts = some (C.emolInit, [msgEmptyRetry d.counts]) ∧
      (∀ pF m, runBlock C C.emolInit d.block = some pF →
        C.convert (collapseRec ⟨(C.getvalue pF).1, (C.getvalue pF).2, none⟩
          (metaAccum0 d.metaLines).meta (pyStrip d.l1)) = some m →
        sdfOutputs C cfg (render d) =
          [Output.mol (attachLog C cfg
            ([msgEmptyRetry d.counts] ++ (metaAccum0 d.metaLines).log) m)])) ∧
    (cfg.ignore = false →
      sdfOutputs C cfg (render d) =
        [Output.err 0 (if cfg.seekable then some 0 else none)
           (fmtLog [msgLineErr d.counts]) []]) := by
  have hini : initState cfg σ ρ
      = freshSt σ ρ "" (if cfg.seekable then some 0 else none) 0 0 := rfl
  constructor
  · intro hig
    have hip : initParserR C cfg d.counts = some (C.emolInit, [msgEmptyRetry d.counts]) := by
      unfold initParserR
      simp [hv, hem, hig]
    refine ⟨hip, fun pF m hrb hcv => ?_⟩
    unfold sdfOutputs
    rw [hini, run_record_mol C cfg d C.emolInit pF [msgEmptyRetry d.counts] m ""
          (if cfg.seekable then some 0 else none) 0 0 h1 h2 h3 h4
          (fun l hl => hbm l (List.mem_append_right _ hl)) hip hrb hcv]
    simp [finish, finalizeRecord, freshSt]
  · intro hig
    have hip : initParserR C cfg d.counts = none := by
      unfold initParserR
      simp [hv, hem, hig]
    unfold sdfOutputs
    rw [hini, run_bad_record C cfg d "" (if cfg.seekable then some 0 else none) 0 0
          h1 h2 h3 h4 hbm hip]
    simp [finish, finalizeRecord, freshSt]

/-- Witness for C9: with `ignore` set, the empty-molecule record is parsed
through the lenient parser and yields its object. -/
theorem claim_C9_witness :
    sdfOutputs TestC ⟨true, false, true⟩ (render dEmpty) =
      [Output.mol (attachLog TestC ⟨true, false, true⟩
        ([msgEmptyRetry dEmpty.counts] ++ (metaAccum0 dEmpty.metaLines).log)
        ⟨["e1\n", "e2\n", "e3\n"], [], some "Mol E"⟩)] :=
  ((claim_C9_empty_molecule_fallback TestC ⟨true, false, true⟩ dEmpty (by decide)
      rfl (by decide) (by decide) (by decide) (by decide)
      (by intro l hl; fin_cases hl <;> decide)).1 rfl).2
    (0, ["e1\n", "e2\n", "e3\n"]) ⟨["e1\n", "e2\n", "e3\n"], [], some "Mol E"⟩
    (by decide) (by decide)

theorem seekRec_sent_state (st : SeekState) (n : Int)
    (h : (seekRec st n).1 = SeekOutcome.sent) :
    (seekRec st n).2
      = { st with filePos := st.shifts.getD n.toNat 0, alreadySeeked := true } ∧
    st.shifts ≠ [] := by
  unfold seekRec at h ⊢
  split_ifs at h ⊢ <;> simp_all

theorem seekRec_blocking (st : SeekState) (n : Int)
    (hne : st.shifts ≠ []) (h0 : 0 ≤ n) (hlen : n < (st.shifts.length : Int))
    (hpos : st.filePos ≠ st.shifts.getD n.toNat 0)
    (hlast : st.filePos ≠ st.shifts.getLastD 0)
    (hsk : st.alreadySeeked = true) :
    (seekRec st n).1 = SeekOutcome.blockingError := by
  unfold seekRec
  rw [if_pos hne, if_pos ⟨h0, hlen⟩, if_pos hpos, if_neg hlast,
      if_neg (by simp [hsk])]

/-- C4 (amended): on an indexed stream, the second of two seek calls with
no record read between them fails with the blocking/ordering error
provided the first seek actually repositioned-and-sent, the second targets
a byte position different from the current one, and the current position
is not the final table entry (seeking to the current position is a silent
no-op, and seeking from end-of-file rebuilds the stream instead of
failing); and `seek(n)` with `n` outside `[0, table length)` always fails
with the range error. -/
theorem claim_C4_amended :
    (∀ (st : SeekState) (n1 n2 : Int),
      (seekRec st n1).1 = SeekOutcome.sent →
      0 ≤ n2 → n2 < (((seekRec st n1).2.shifts.length : Int)) →
      (seekRec st n1).2.filePos ≠ (seekRec st n1).2.shifts.getD n2.toNat 0 →
      (seekRec st n1).2.filePos ≠ (seekRec st n1).2.shifts.getLastD 0 →
      (seekRec (seekRec st n1).2 n2).1 = SeekOutcome.blockingError) ∧
    (∀ (st : SeekState) (n : Int), st.shifts ≠ [] →
      (n < 0 ∨ (st.shifts.length : Int) ≤ n) →
      (seekRec st n).1 = SeekOutcome.indexError) := by
  constructor
  · intro st n1 n2 hsent h0 hlen hpos hlast
    obtain ⟨hst, hne⟩ := seekRec_sent_state st n1 hsent
    rw [hst] at hpos hlast hlen ⊢
    exact seekRec_blocking _ n2 (by simpa using hne) h0 (by simpa using hlen)
      (by simpa using hpos) (by simpa using hlast) rfl
  · intro st n hne h
    have hnot : ¬ (0 ≤ n ∧ n < (st.shifts.length : Int)) := by omega
    unfold seekRec
    simp [hne, hnot]

/-- C4 counterexample: two consecutive seeks with no read between them do
not always fail with a protocol error — a second seek targeting the record
just seeked to finds `current_pos == new_pos` and silently does nothing. -/
theorem claim_C4_counterexample :
    (seekRec ⟨[0, 7, 12], 0, false⟩ 1).1 = SeekOutcome.sent ∧
    (seekRec (seekRec ⟨[0, 7, 12], 0, false⟩ 1).2 1).1 = SeekOutcome.noop ∧
    SeekOutcome.noop ≠ SeekOutcome.blockingError := by decide

/-- Witness for the amended C4: a second seek to a genuinely different,
non-final position raises `BlockingIOError`, and an out-of-range seek
raises `IndexError`. -/
theorem claim_C4_witness :
    (seekRec (seekRec ⟨[0, 7, 12], 0, false⟩ 1).2 2).1 = SeekOutcome.blockingError ∧
    (seekRec ⟨[0, 7, 12], 0, false⟩ 5).1 = SeekOutcome.indexError :=
  ⟨claim_C4_amended.1 ⟨[0, 7, 12], 0, false⟩ 1 2 (by decide) (by decide) (by decide)
     (by decide) (by decide),
   claim_C4_amended.2 ⟨[0, 7, 12], 0, false⟩ 5 (by decide) (by decide)⟩

/-! ### Byte-offset geometry for `tell` -/

theorem descNoDollar_elim (d : RecDesc) (h : descNoDollar d = true) :
    ∀ l ∈ renderNoDelim d, pyContains l "$$$$" = false := by
  unfold descNoDollar noDollar at h
  simp only [Bool.and_eq_true, Bool.not_eq_true', List.all_eq_true] at h
  obtain ⟨⟨⟨⟨⟨h1, h2⟩, h3⟩, h4⟩, hb⟩, hm⟩ := h
  intro l hl
  unfold renderNoDelim at hl
  simp only [List.append_assoc, List.cons_append, List.nil_append, List.mem_cons,
    List.mem_append] at hl
  rcases hl with rfl | rfl | rfl | rfl | hl | hl
  · exact h1
  · exact h2
  · exact h3
  · exact h4
  · simpa using hb l hl
  · simpa using hm l hl

theorem getShiftsGo_nodollar (ls : List String) (rest : List String) (pos : Nat)
    (h : ∀ l ∈ ls, pyContains l "$$$$" = false) :
    getShiftsGo pos (ls ++ rest) = getShiftsGo (pos + linesSize ls) rest := by
  induction ls generalizing pos with
  | nil => simp [linesSize]
  | cons l ls ih =>
    simp only [List.cons_append, getShiftsGo, h l (by simp), if_false, Bool.false_eq_true,
      List.append_eq]
    rw [ih _ (fun x hx => h x (by simp [hx]))]
    rw [linesSize_cons]
    congr 1
    omega

theorem getShiftsGo_chunks (ds : List RecDesc) (pos : Nat)
    (h : ∀ d ∈ ds, descNoDollar d = true) :
    getShiftsGo pos (ds.flatMap render) = chunkSums pos ds := by
  induction ds generalizing pos with
  | nil => simp [getShiftsGo, chunkSums]
  | cons d ds ih =>
    rw [show (d :: ds).flatMap render = render d ++ ds.flatMap render from rfl]
    rw [show render d ++ ds.flatMap render
        = renderNoDelim d ++ (delimLine :: ds.flatMap render) by simp [render]]
    rw [getShiftsGo_nodollar _ _ pos (descNoDollar_elim d (h d (by simp)))]
    simp only [getShiftsGo, show pyContains delimLine "$$$$" = true from by decide, if_true]
    rw [ih _ (fun x hx => h x (by simp [hx]))]
    have hsz : linesSize (render d) = linesSize (renderNoDelim d) + delimLine.length := by
      simp [render, linesSize]
    have e : pos + linesSize (renderNoDelim d) + delimLine.length
        = pos + linesSize (render d) := by
      rw [hsz]
      omega
    rw [e]
    rfl

theorem render_size_pos (d : RecDesc) : 0 < linesSize (render d) := by
  have : linesSize (render d) = linesSize (renderNoDelim d) + delimLine.length := by
    simp [render, linesSize]
  rw [this]
  have : delimLine.length = 5 := by decide
  omega

theorem chunkSums_gt (ds : List RecDesc) (pos : Nat) :
    ∀ x ∈ chunkSums pos ds, pos < x := by
  induction ds generalizing pos with
  | nil => simp [chunkSums]
  | cons d ds ih =>
    intro x hx
    unfold chunkSums at hx
    rcases List.mem_cons.mp hx with rfl | hx
    · have := render_size_pos d
      omega
    · have h1 := ih (pos + linesSize (render d)) x hx
      have := render_size_pos d
      omega

theorem bisect_boundary (ds : List RecDesc) (pos : Nat) (k : Nat) (hk : k ≤ ds.length) :
    bisectLeft (pos :: chunkSums pos ds)
      (pos + linesSize ((ds.take k).flatMap render)) = k := by
  induction ds generalizing pos k with
  | nil =>
    have hk0 : k = 0 := by simpa using hk
    subst hk0
    simp [bisectLeft, chunkSums, linesSize]
  | cons d ds ih =>
    cases k with
    | zero =>
      simp only [List.take_zero, linesSize, List.map_nil, List.sum_nil, Nat.add_zero]
      show bisectLeft (pos :: chunkSums pos (d :: ds)) pos = 0
      unfold bisectLeft
      rw [List.countP_cons]
      rw [List.countP_eq_zero.mpr
        (by
          intro x hx
          have := chunkSums_gt (d :: ds) pos x hx
          simp
          omega)]
      simp
    | succ k =>
      have hk' : k ≤ ds.length := by simpa using hk
      have htake : ((d :: ds).take (k + 1)).flatMap render
          = render d ++ (ds.take k).flatMap render := by
        simp [List.take_succ_cons]
      rw [htake, linesSize_append]
      have hkey : pos + (linesSize (render d) + linesSize ((ds.take k).flatMap render))
          = (pos + linesSize (render d)) + linesSize ((ds.take k).flatMap render) := by
        omega
      rw [hkey]
      have hih := ih (pos + linesSize (render d)) k hk'
      rw [show pos :: chunkSums pos (d :: ds)
          = pos :: (pos + linesSize (render d))
              :: chunkSums (pos + linesSize (render d)) ds from rfl]
      unfold bisectLeft at hih ⊢
      rw [List.countP_cons]
      rw [hih]
      have hpos2 : pos < pos + linesSize (render d)
          + linesSize ((ds.take k).flatMap render) := by
        have := render_size_pos d
        omega
      simp [hpos2]

/-- C5 (amended): `tell()` computes `bisect_left` — the number of table
entries strictly below the current byte position.  For a position equal to
a table entry this is that entry's index, so `tell()` is 0 immediately
after constructing the index and `k` after consuming `k` records; but for
a position strictly inside a record it is not the index of the largest
entry ≤ the position (it is one more). -/
theorem claim_C5_amended {σ ρ μ : Type} [Inhabited μ] (C : Collab σ ρ μ) (cfg : Cfg)
    (ds : List RecDesc) (k : Nat)
    (hnd : ∀ d ∈ ds, descNoDollar d = true) (hk : k ≤ ds.length)
    (hwf : ∀ d ∈ ds, WF C cfg d = true) :
    tellRec (getShifts (ds.flatMap render)) 0 = some 0 ∧
    tellRec (getShifts (ds.flatMap render))
      (linesSize ((ds.take k).flatMap render)) = some k ∧
    tellRec (getShifts (ds.flatMap render))
      ((runLines C cfg (initState cfg σ ρ) ((ds.take k).flatMap render)).1.consumed)
      = some k := by
  have hsh : getShifts (ds.flatMap render) = 0 :: chunkSums 0 ds := by
    unfold getShifts
    rw [getShiftsGo_chunks ds 0 hnd]
  have hb := bisect_boundary ds 0 k hk
  simp only [Nat.zero_add] at hb
  have htell : tellRec (getShifts (ds.flatMap render))
      (linesSize ((ds.take k).flatMap render)) = some k := by
    rw [hsh]
    unfold tellRec
    rw [if_pos (by simp)]
    exact congrArg some hb
  refine ⟨?_, htell, ?_⟩
  · rw [hsh]
    unfold tellRec
    rw [if_pos (by simp)]
    refine congrArg some ?_
    have h0 := bisect_boundary ds 0 0 (by omega)
    simpa using h0
  · obtain ⟨t2, hrun⟩ := run_wf_list C cfg (ds.take k) "" 0 0
      (fun d hd => hwf d (List.take_subset k ds hd))
    have hini : initState cfg σ ρ
        = freshSt σ ρ "" (if cfg.seekable then some 0 else none) 0 0 := rfl
    rw [hini, hrun]
    simpa [freshSt] using htell

/-- C5 counterexample: for a byte position strictly inside a record,
`tell()` (`bisect_left`) does not return the index of the largest table
entry ≤ the position: at position 5 with table `[0, 10, 20]` the code
returns record index 1 while the claimed rule gives index 0. -/
theorem claim_C5_counterexample :
    tellRec [0, 10, 20] 5 = some 1 ∧ largestLEIdx [0, 10, 20] 5 = 0 ∧
    (some 1 : Option Nat) ≠ some 0 := by decide

/-- Witness for the amended C5 at a concrete two-record file. -/
theorem claim_C5_witness :
    tellRec (getShifts ([dA, dB].flatMap render)) 0 = some 0 ∧
    tellRec (getShifts ([dA, dB].flatMap render))
      (linesSize (([dA, dB].take 1).flatMap render)) = some 1 ∧
    tellRec (getShifts ([dA, dB].flatMap render))
      ((runLines TestC testCfg (initState testCfg (Nat × List String) (List String))
          (([dA, dB].take 1).flatMap render)).1.consumed) = some 1 :=
  claim_C5_amended TestC testCfg [dA, dB] 1 (by decide) (by decide) (by decide)

/-! ### Metadata groups -/

theorem takeWhile_append_all {α : Type} (p : α → Bool) (l r : List α)
    (h : ∀ x ∈ l, p x = true) :
    (l ++ r).takeWhile p = l ++ r.takeWhile p := by
  induction l with
  | nil => rfl
  | cons a l ih =>
    simp [List.takeWhile_cons, h a (by simp), ih (fun x hx => h x (by simp [hx]))]

theorem headMatch_header (k : String)
    (hlt : ∀ c ∈ k.data, c ≠ '<') (hgt : ∀ c ∈ k.data, c ≠ '>')
    (hnl : ∀ c ∈ k.data, c ≠ '\n') :
    headMatch (">  <" ++ k ++ ">\n") = some k := by
  have hdata : (">  <" ++ k ++ ">\n").data
      = '>' :: ' ' :: ' ' :: '<' :: (k.data ++ ['>', '\n']) := rfl
  unfold headMatch
  rw [hdata]
  dsimp only
  rw [if_pos (by exact ⟨rfl, by decide⟩)]
  have hpre : (' ' :: '<' :: (k.data ++ ['>', '\n'])).takeWhile (fun c => c ≠ '\n')
      = ' ' :: '<' :: (k.data ++ ['>']) := by
    rw [List.takeWhile_cons_of_pos (by decide), List.takeWhile_cons_of_pos (by decide)]
    rw [takeWhile_append_all _ k.data ['>', '\n'] (by intro x hx; simpa using hnl x hx)]
    rfl
  rw [hpre]
  have hrev : (' ' :: '<' :: (k.data ++ ['>'])).reverse
      = '>' :: (k.data.reverse ++ ['<', ' ']) := by
    simp
  rw [hrev]
  rw [List.dropWhile_cons_of_neg (by simp)]
  have hgrev : (k.data.reverse ++ ['<', ' ']).takeWhile (fun c => c ≠ '<')
      = k.data.reverse := by
    rw [takeWhile_append_all _ k.data.reverse ['<', ' ']
        (by intro x hx; simp at hx ⊢; exact hlt x hx)]
    simp [List.takeWhile_cons]
  dsimp only
  rw [hgrev]
  rw [if_neg (by simp)]
  obtain ⟨kd⟩ := k
  simp

theorem startsDollars_header (k : String) :
    startsDollars (">  <" ++ k ++ ">\n") = false := rfl

theorem goodKey_elim (k : String) (hgk : goodKey k = true) :
    k ≠ "" ∧ pyStrip k = k ∧ ∀ c ∈ k.data, c ≠ '<' ∧ c ≠ '>' ∧ c ≠ '\n' := by
  unfold goodKey at hgk
  simp only [Bool.and_eq_true, decide_eq_true_eq, Bool.not_eq_true'] at hgk
  refine ⟨hgk.1.1, hgk.1.2, ?_⟩
  intro c hc
  have h2 := (List.any_eq_false.mp hgk.2) c hc
  simp only [Bool.or_eq_true, decide_eq_true_eq] at h2
  push_neg at h2
  exact ⟨h2.1.1, h2.1.2, h2.2⟩

theorem metaStep_header (a : MetaAcc) (k : String) (hgk : goodKey k = true) :
    metaStep a (">  <" ++ k ++ ">\n") = ⟨k, a.meta, a.log⟩ := by
  obtain ⟨hne, hstrip, hchars⟩ := goodKey_elim k hgk
  have hh := headMatch_header k (fun c hc => (hchars c hc).1)
    (fun c hc => (hchars c hc).2.1) (fun c hc => (hchars c hc).2.2)
  unfold metaStep
  rw [hh]
  simp [hstrip, hne]

theorem metaStep_value (a : MetaAcc) (v : String) (hk : a.mkey ≠ "")
    (hgv : goodVal v = true) :
    metaStep a (v ++ "\n") = ⟨a.mkey, mdAppend a.meta a.mkey v, a.log⟩ := by
  unfold goodVal at hgv
  simp only [Bool.and_eq_true, decide_eq_true_eq] at hgv
  obtain ⟨⟨⟨⟨hne, hstrip⟩, hhm⟩, _⟩, _⟩ := hgv
  unfold metaStep
  rw [hhm]
  simp [hk, hstrip, hne]

theorem metaAccum_values (mk : String) (m : List (String × List String))
    (lg : List String) (vls : List String) (hmk : mk ≠ "")
    (hgv : ∀ v ∈ vls, goodVal v = true) :
    (vls.map (fun v => v ++ "\n")).foldl metaStep ⟨mk, m, lg⟩
      = ⟨mk, mdAppendAll m mk vls, lg⟩ := by
  induction vls generalizing m with
  | nil => rfl
  | cons v vls ih =>
    simp only [List.map_cons, List.foldl_cons]
    rw [metaStep_value ⟨mk, m, lg⟩ v hmk (hgv v (by simp))]
    exact ih (mdAppend m mk v) (fun x hx => hgv x (by simp [hx]))

theorem metaAccum_groupFold (a : MetaAcc) (k : String) (vls : List String)
    (hgk : goodKey k = true) (hgv : ∀ v ∈ vls, goodVal v = true) :
    (groupLines k vls).foldl metaStep a = ⟨k, mdAppendAll a.meta k vls, a.log⟩ := by
  have hne : k ≠ "" := by
    unfold goodKey at hgk
    simp only [Bool.and_eq_true, decide_eq_true_eq] at hgk
    exact hgk.1.1
  unfold groupLines
  simp only [List.foldl_cons]
  rw [metaStep_header a k hgk]
  exact metaAccum_values k a.meta a.log vls hne hgv

theorem mdAppend_single (k : String) (vs : List String) (v : String) :
    mdAppend [(k, vs)] k v = [(k, vs ++ [v])] := by
  simp [mdAppend]

theorem mdAppendAll_single (k : String) (vs bs : List String) :
    mdAppendAll [(k, vs)] k bs = [(k, vs ++ bs)] := by
  induction bs generalizing vs with
  | nil => simp [mdAppendAll]
  | cons b bs ih =>
    unfold mdAppendAll
    simp only [List.foldl_cons, mdAppend_single]
    have := ih (vs ++ [b])
    unfold mdAppendAll at this
    rw [this]
    simp

theorem mdAppendAll_nil (k : String) (vs : List String) (h : vs ≠ []) :
    mdAppendAll [] k vs = [(k, vs)] := by
  cases vs with
  | nil => contradiction
  | cons v vs =>
    unfold mdAppendAll
    simp only [List.foldl_cons]
    rw [show mdAppend [] k v = [(k, [v])] from rfl]
    have := mdAppendAll_single k [v] vs
    unfold mdAppendAll at this
    rw [this]
    simp

theorem dictGet_dictSet {α : Type} (m : List (String × α)) (k : String) (v : α) :
    dictGet (dictSet m k v) k = some v := by
  induction m with
  | nil => simp [dictSet, dictGet]
  | cons kv m ih =>
    by_cases hk : kv.1 = k
    · simp [dictSet, dictGet, hk]
    · simp [dictSet, dictGet, hk, ih]

/-- C10: within one record, two metadata header lines carrying the same
key accumulate the value lines of both groups under that key in encounter
order — the later group's values are appended after the earlier group's,
never overwriting them — and the merged sequence is what is collapsed
(newline-joined) into the record's metadata at finalization. -/
theorem claim_C10_duplicate_key_accumulation {σ ρ μ : Type} (C : Collab σ ρ μ)
    (cfg : Cfg) (l1 l2 l3 counts : String) (block : List String)
    (K : String) (as bs : List String)
    (hgk : goodKey K = true)
    (has : ∀ v ∈ as, goodVal v = true) (hbs : ∀ v ∈ bs, goodVal v = true)
    (hane : as ≠ []) :
    (metaAccum0 (groupLines K as ++ groupLines K bs)).meta = [(K, as ++ bs)] ∧
    (∀ r : MolRec ρ,
      finalRecOf C cfg ⟨l1, l2, l3, counts, block, groupLines K as ++ groupLines K bs⟩
        = some r →
      dictGet r.meta K = some (pyJoin "\n" (as ++ bs))) := by
  have hacc : metaAccum0 (groupLines K as ++ groupLines K bs)
      = ⟨K, [(K, as ++ bs)], []⟩ := by
    unfold metaAccum0
    rw [List.foldl_append]
    rw [metaAccum_groupFold ⟨"", [], []⟩ K as hgk has]
    rw [metaAccum_groupFold ⟨K, mdAppendAll [] K as, []⟩ K bs hgk hbs]
    rw [show (⟨K, mdAppendAll [] K as, []⟩ : MetaAcc).meta = mdAppendAll [] K as from rfl]
    rw [mdAppendAll_nil K as hane, mdAppendAll_single]
  refine ⟨by rw [hacc], ?_⟩
  intro r hfr
  unfold finalRecOf at hfr
  cases hbp : blockParse C cfg ⟨l1, l2, l3, counts, block, groupLines K as ++ groupLines K bs⟩ with
  | none => rw [hbp] at hfr; simp at hfr
  | some pF =>
    rw [hbp] at hfr
    simp only [Option.map_some', Option.some_inj] at hfr
    subst hfr
    rw [collapseRec_meta]
    simp only [hacc]
    rw [show prepareMeta [(K, as ++ bs)]
        = [(K, pyJoin "\n" (as ++ bs))] from rfl]
    rw [show dictUpdate (C.getvalue pF).2 [(K, pyJoin "\n" (as ++ bs))]
        = dictSet (C.getvalue pF).2 K (pyJoin "\n" (as ++ bs)) from rfl]
    exact dictGet_dictSet _ _ _

/-- Witness for C10: both groups' values merge under `KEY` in encounter
order and collapse to one newline-joined string in the final record. -/
theorem claim_C10_witness :
    (metaAccum0 (groupLines "KEY" ["a1", "a2"] ++ groupLines "KEY" ["b1"])).meta
      = [("KEY", ["a1", "a2"] ++ ["b1"])] ∧
    dictGet (⟨["x\n", "y\n"], [("KEY", "a1\na2\nb1")], some "T"⟩ : TRec).meta "KEY"
      = some (pyJoin "\n" (["a1", "a2"] ++ ["b1"])) :=
  ⟨(claim_C10_duplicate_key_accumulation TestC testCfg "T\n" "\n" "\n" "  1  1  V2000\n"
      ["x\n", "y\n"] "KEY" ["a1", "a2"] ["b1"] (by decide)
      (by intro v hv; fin_cases hv <;> decide) (by intro v hv; fin_cases hv <;> decide)
      (by decide)).1,
   (claim_C10_duplicate_key_accumulation TestC testCfg "T\n" "\n" "\n" "  1  1  V2000\n"
      ["x\n", "y\n"] "KEY" ["a1", "a2"] ["b1"] (by decide)
      (by intro v hv; fin_cases hv <;> decide) (by intro v hv; fin_cases hv <;> decide)
      (by decide)).2
     ⟨["x\n", "y\n"], [("KEY", "a1\na2\nb1")], some "T"⟩ (by decide)⟩

/-! ### Round-trip instantiation -/

theorem str_ext {a b : String} (h : a.data = b.data) : a = b :=
  congrArg String.mk h

theorem str_data_append (a b : String) : (a ++ b).data = a.data ++ b.data := rfl

theorem str_empty_append (s : String) : "" ++ s = s :=
  str_ext (by simp [str_data_append])

theorem str_append_empty (s : String) : s ++ "" = s :=
  str_ext (by simp [str_data_append])

theorem str_append_assoc (a b c : String) : a ++ b ++ c = a ++ (b ++ c) :=
  str_ext (by simp [str_data_append])

theorem strConcat_append (xs ys : List String) :
    strConcat (xs ++ ys) = strConcat xs ++ strConcat ys := by
  induction xs with
  | nil => simp [strConcat, str_empty_append]
  | cons x xs ih => simp [strConcat, ih, str_append_assoc]

theorem pyJoin_nl (vls : List String) (h : vls ≠ []) :
    pyJoin "\n" vls ++ "\n" = strConcat (vls.map (fun v => v ++ "\n")) := by
  induction vls with
  | nil => contradiction
  | cons v vls ih =>
    cases vls with
    | nil => simp [pyJoin, strConcat, str_append_empty]
    | cons w ws =>
      rw [show pyJoin "\n" (v :: w :: ws) = v ++ "\n" ++ pyJoin "\n" (w :: ws) from rfl]
      rw [str_append_assoc (v ++ "\n") (pyJoin "\n" (w :: ws)) "\n"]
      rw [ih (by simp)]
      rfl

theorem splitLinesAux_chunk (cs : List Char) (rest : List Char) (acc : List Char)
    (h : ∀ c ∈ cs, c ≠ '\n') :
    splitLinesAux acc (cs ++ '\n' :: rest)
      = String.mk ((acc.reverse ++ cs) ++ ['\n']) :: splitLinesAux [] rest := by
  induction cs generalizing acc with
  | nil => simp [splitLinesAux]
  | cons c cs ih =>
    have hc : c ≠ '\n' := h c (by simp)
    simp only [List.cons_append, splitLinesAux]
    rw [if_neg hc]
    simp only [List.append_eq]
    rw [ih (c :: acc) (fun x hx => h x (by simp [hx]))]
    simp

theorem splitLines_concat (lines : List String)
    (h : ∀ l ∈ lines, ∃ cs, l.data = cs ++ ['\n'] ∧ ∀ c ∈ cs, c ≠ '\n') :
    splitLines (strConcat lines) = lines := by
  induction lines with
  | nil => rfl
  | cons l ls ih =>
    obtain ⟨cs, hl, hcs⟩ := h l (by simp)
    unfold splitLines
    rw [show (strConcat (l :: ls)).data = l.data ++ (strConcat ls).data from rfl]
    rw [hl]
    rw [show (cs ++ ['\n']) ++ (strConcat ls).data = cs ++ '\n' :: (strConcat ls).data
        by simp]
    rw [splitLinesAux_chunk cs _ [] hcs]
    have h2 := ih (fun x hx => h x (by simp [hx]))
    unfold splitLines at h2
    rw [h2]
    have hhd : String.mk (([] : List Char).reverse ++ cs ++ ['\n']) = l :=
      str_ext (by simpa using hl.symm)
    rw [hhd]

theorem append_nl_ne (l t : String) (h : l ≠ t) : l ++ "\n" ≠ t ++ "\n" := by
  intro he
  apply h
  apply str_ext
  have h2 : (l ++ "\n").data = (t ++ "\n").data := by rw [he]
  simp only [str_data_append] at h2
  exact List.append_cancel_right h2

theorem runBlock_RTC (acc : List String) (ls : List String)
    (h : ∀ l ∈ ls, l ≠ "M  END\n") :
    runBlock RTC acc (ls ++ ["M  END\n"]) = some (acc ++ ls) := by
  induction ls generalizing acc with
  | nil => simp [runBlock, RTC]
  | cons l ls ih =>
    have hl : l ≠ "M  END\n" := h l (by simp)
    cases ls with
    | nil => simp [runBlock, RTC, hl]
    | cons l' ls' =>
      rw [show (l :: l' :: ls') ++ ["M  END\n"] = l :: (l' :: (ls' ++ ["M  END\n"]))
          by simp]
      unfold runBlock
      rw [show RTC.feed acc l = some (false, acc ++ [l]) by simp [RTC, hl]]
      have hrest := ih (acc ++ [l]) (fun x hx => h x (by simp [hx]))
      rw [show (l' :: ls') ++ ["M  END\n"] = l' :: (ls' ++ ["M  END\n"]) by simp] at hrest
      dsimp only
      rw [hrest]
      simp

theorem mdAppend_fresh (m : List (String × List String)) (k v : String)
    (h : k ∉ m.map Prod.fst) : mdAppend m k v = m ++ [(k, [v])] := by
  induction m with
  | nil => rfl
  | cons kv m ih =>
    simp only [List.map_cons, List.mem_cons] at h
    push_neg at h
    simp [mdAppend, Ne.symm h.1, ih h.2]

theorem mdAppend_last (m : List (String × List String)) (k : String) (vs : List String)
    (v : String) (h : k ∉ m.map Prod.fst) :
    mdAppend (m ++ [(k, vs)]) k v = m ++ [(k, vs ++ [v])] := by
  induction m with
  | nil => simp [mdAppend]
  | cons kv m ih =>
    simp only [List.map_cons, List.mem_cons] at h
    push_neg at h
    simp [mdAppend, Ne.symm h.1, ih h.2]

theorem mdAppendAll_last (m : List (String × List String)) (k : String)
    (vs bs : List String) (h : k ∉ m.map Prod.fst) :
    mdAppendAll (m ++ [(k, vs)]) k bs = m ++ [(k, vs ++ bs)] := by
  induction bs generalizing vs with
  | nil => simp [mdAppendAll]
  | cons b bs ih =>
    unfold mdAppendAll
    simp only [List.foldl_cons]
    rw [mdAppend_last m k vs b h]
    have h2 := ih (vs ++ [b])
    unfold mdAppendAll at h2
    rw [h2]
    simp

theorem mdAppendAll_fresh (m : List (String × List String)) (k : String)
    (vs : List String) (h : k ∉ m.map Prod.fst) (hne : vs ≠ []) :
    mdAppendAll m k vs = m ++ [(k, vs)] := by
  cases vs with
  | nil => contradiction
  | cons v vs =>
    unfold mdAppendAll
    simp only [List.foldl_cons]
    rw [mdAppend_fresh m k v h]
    have h2 := mdAppendAll_last m k [v] vs h
    unfold mdAppendAll at h2
    rw [h2]
    simp

theorem metaAccum_groups (metaG : List (String × List String)) (a : MetaAcc)
    (hdisj : ∀ kv ∈ metaG, kv.1 ∉ a.meta.map Prod.fst)
    (hnd : (metaG.map Prod.fst).Nodup)
    (hg : ∀ kv ∈ metaG, goodKey kv.1 = true ∧ kv.2 ≠ [] ∧ ∀ v ∈ kv.2, goodVal v = true) :
    ∃ mk2, (metaG.flatMap (fun kv => groupLines kv.1 kv.2)).foldl metaStep a
      = ⟨mk2, a.meta ++ metaG, a.log⟩ := by
  induction metaG generalizing a with
  | nil => exact ⟨a.mkey, by simp⟩
  | cons kv G ih =>
    obtain ⟨hgk, hvne, hgv⟩ := hg kv (by simp)
    rw [show (kv :: G).flatMap (fun kv => groupLines kv.1 kv.2)
        = groupLines kv.1 kv.2 ++ G.flatMap (fun kv => groupLines kv.1 kv.2) from rfl]
    rw [List.foldl_append]
    rw [metaAccum_groupFold a kv.1 kv.2 hgk hgv]
    have hfresh : mdAppendAll a.meta kv.1 kv.2 = a.meta ++ [kv] := by
      rw [mdAppendAll_fresh a.meta kv.1 kv.2 (hdisj kv (by simp)) hvne]
    rw [show (⟨kv.1, mdAppendAll a.meta kv.1 kv.2, a.log⟩ : MetaAcc)
        = ⟨kv.1, a.meta ++ [kv], a.log⟩ by rw [hfresh]]
    obtain ⟨mk2, hmk⟩ := ih ⟨kv.1, a.meta ++ [kv], a.log⟩
      (by
        intro kv2 hkv2
        simp only [List.map_append, List.mem_append, List.map_cons, List.map_nil,
          List.mem_cons, List.not_mem_nil]
        push_neg
        refine ⟨hdisj kv2 (by simp [hkv2]), ?_, fun hf => hf⟩
        intro he
        exact (List.nodup_cons.mp hnd).1 (he ▸ List.mem_map_of_mem Prod.fst hkv2))
      (List.nodup_cons.mp hnd).2
      (fun kv2 hkv2 => hg kv2 (by simp [hkv2]))
    refine ⟨mk2, ?_⟩
    rw [hmk]
    simp

theorem noNl_elim (s : String) (h : noNl s = true) : ∀ c ∈ s.data, c ≠ '\n' := by
  unfold noNl at h
  rw [Bool.not_eq_true'] at h
  intro c hc
  have h2 := (List.any_eq_false.mp h) c hc
  simpa using h2

theorem goodVal_elim (v : String) (h : goodVal v = true) :
    v ≠ "" ∧ pyStrip (v ++ "\n") = v ∧ headMatch (v ++ "\n") = none ∧
    startsDollars (v ++ "\n") = false ∧ ∀ c ∈ v.data, c ≠ '\n' := by
  unfold goodVal at h
  simp only [Bool.and_eq_true, decide_eq_true_eq, Bool.not_eq_true'] at h
  refine ⟨h.1.1.1.1, h.1.1.1.2, h.1.1.2, h.1.2, ?_⟩
  intro c hc
  have h2 := (List.any_eq_false.mp h.2) c hc
  simpa using h2

theorem goodTitle_elim (t : String) (h : goodTitle (some t) = true) :
    t ≠ "" ∧ pyStrip (t ++ "\n") = t ∧ noNl t = true ∧
    startsDollars (t ++ "\n") = false := by
  unfold goodTitle at h
  simp only [Bool.and_eq_true, decide_eq_true_eq, Bool.not_eq_true'] at h
  exact ⟨h.1.1.1, h.1.1.2, h.1.2, h.2⟩

theorem strConcat_cons (x : String) (xs : List String) :
    strConcat (x :: xs) = x ++ strConcat xs := rfl

theorem metaChunks_concat (metaG : List (String × List String))
    (hvne : ∀ kv ∈ metaG, kv.2 ≠ []) :
    strConcat ((metaG.map (fun kv => (kv.1, pyJoin "\n" kv.2))).map
        (fun kv => ">  <" ++ kv.1 ++ ">\n" ++ kv.2 ++ "\n"))
      = strConcat (metaG.flatMap (fun kv => groupLines kv.1 kv.2)) := by
  induction metaG with
  | nil => rfl
  | cons kv G ih =>
    rw [show (kv :: G).flatMap (fun kv => groupLines kv.1 kv.2)
        = groupLines kv.1 kv.2 ++ G.flatMap (fun kv => groupLines kv.1 kv.2) from rfl]
    rw [strConcat_append]
    simp only [List.map_cons, strConcat_cons]
    rw [ih (fun x hx => hvne x (by simp [hx]))]
    congr 1
    unfold groupLines
    rw [strConcat_cons]
    rw [← pyJoin_nl kv.2 (hvne kv (by simp))]
    simp [str_append_assoc]

theorem sdfWrite_eq_concat (title? : Option String) (coreC : List String)
    (metaG : List (String × List String))
    (hvne : ∀ kv ∈ metaG, kv.2 ≠ []) :
    sdfWrite RTW (mOf title? coreC metaG)
      = strConcat (render (rtDesc title? coreC metaG)) := by
  unfold sdfWrite RTW mOf rtDesc render renderNoDelim delimLine
  dsimp only
  rw [metaChunks_concat metaG hvne]
  simp [strConcat_append, strConcat_cons, strConcat, str_append_assoc,
    str_append_empty, rtCounts]
  have hlit : ∀ X : String,
      ("\n" : String) ++ ("\n" ++ ("\n" ++ ("  0  0  V2000\n" ++ X)))
        = "\n\n\n  0  0  V2000\n" ++ X := by
    intro X
    rw [← str_append_assoc, ← str_append_assoc, ← str_append_assoc]
    rfl
  rw [hlit]

theorem rtDesc_lines_decomp (title? : Option String) (coreC : List String)
    (metaG : List (String × List String))
    (ht : goodTitle title? = true)
    (hcore : ∀ l ∈ coreC, noNl l = true)
    (hkeys : ∀ kv ∈ metaG, goodKey kv.1 = true ∧ ∀ v ∈ kv.2, goodVal v = true) :
    ∀ l ∈ render (rtDesc title? coreC metaG),
      ∃ cs, l.data = cs ++ ['\n'] ∧ ∀ c ∈ cs, c ≠ '\n' := by
  intro l hl
  unfold render renderNoDelim rtDesc delimLine at hl
  simp only [List.append_assoc, List.cons_append, List.nil_append, List.mem_append,
    List.mem_cons, List.mem_map, List.mem_flatMap] at hl
  rcases hl with rfl | rfl | rfl | rfl | ⟨x, hx, rfl⟩ | rfl | ⟨kv, hkv, hin⟩ | rfl | hf
  · cases title? with
    | none => exact ⟨[], by decide, by simp⟩
    | some t =>
      exact ⟨t.data, rfl, noNl_elim t (goodTitle_elim t ht).2.2.1⟩
  · exact ⟨[], by decide, by simp⟩
  · exact ⟨[], by decide, by simp⟩
  · exact ⟨"  0  0  V2000".data, by decide, by decide⟩
  · exact ⟨x.data, rfl, noNl_elim x (hcore x hx)⟩
  · exact ⟨"M  END".data, by decide, by decide⟩
  · unfold groupLines at hin
    rcases List.mem_cons.mp hin with rfl | hin
    · refine ⟨'>' :: ' ' :: ' ' :: '<' :: (kv.1.data ++ ['>']), by simp, ?_⟩
      intro c hc
      simp only [List.mem_cons, List.mem_append] at hc
      rcases hc with rfl | rfl | rfl | rfl | hc | hc
      · decide
      · decide
      · decide
      · decide
      · exact ((goodKey_elim kv.1 (hkeys kv hkv).1).2.2 c hc).2.2
      · rcases hc with rfl | hf
        · decide
        · exact absurd hf (List.not_mem_nil c)
    · obtain ⟨v, hv, rfl⟩ := List.mem_map.mp hin
      exact ⟨v.data, rfl, (goodVal_elim v ((hkeys kv hkv).2 v hv)).2.2.2.2⟩
  · exact ⟨"$$$$".data, by decide, by decide⟩
  · exact absurd hf (List.not_mem_nil l)

/-- C8 (amended): writing a domain object and re-parsing the single-record
output reproduces the object exactly — structural lines, title and the
key-to-string metadata mapping with each multi-line value's newline-join
preserved — provided the metadata keys are distinct, non-empty,
strip-invariant and free of `<`, `>` and newlines, every value is a
non-empty list of non-empty, strip-invariant, non-header,
non-delimiter-prefixed lines, and the title (when present) is non-empty,
strip-invariant and newline-free.  (Outside these conditions the round
trip can lose or alter metadata.) -/
theorem claim_C8_amended (title? : Option String) (coreC : List String)
    (metaG : List (String × List String))
    (ht : goodTitle title? = true)
    (hcore : ∀ l ∈ coreC, noNl l = true ∧ l ≠ "M  END")
    (hnd : (metaG.map Prod.fst).Nodup)
    (hg : ∀ kv ∈ metaG, goodKey kv.1 = true ∧ kv.2 ≠ [] ∧ (∀ v ∈ kv.2, goodVal v = true)) :
    sdfOutputs RTC rtCfg (splitLines (sdfWrite RTW (mOf title? coreC metaG)))
      = [Output.mol (mOf title? coreC metaG)] := by
  rw [sdfWrite_eq_concat title? coreC metaG (fun kv hkv => (hg kv hkv).2.1)]
  rw [splitLines_concat _ (rtDesc_lines_decomp title? coreC metaG ht
      (fun l hl => (hcore l hl).1)
      (fun kv hkv => ⟨(hg kv hkv).1, (hg kv hkv).2.2⟩))]
  have hip : initParserR RTC rtCfg (rtDesc title? coreC metaG).counts
      = some (([] : List String), ([] : List String)) := rfl
  have hrb : runBlock RTC [] (rtDesc title? coreC metaG).block
      = some (coreC.map (fun l => l ++ "\n")) := by
    show runBlock RTC [] (coreC.map (fun l => l ++ "\n") ++ ["M  END\n"]) = _
    rw [runBlock_RTC [] (coreC.map (fun l => l ++ "\n"))
        (by
          intro l hl
          obtain ⟨x, hx, rfl⟩ := List.mem_map.mp hl
          rw [show ("M  END\n" : String) = "M  END" ++ "\n" from rfl]
          exact append_nl_ne x "M  END" (hcore x hx).2)]
    simp
  obtain ⟨mk2, hacc⟩ := metaAccum_groups metaG ⟨"", [], []⟩ (by simp) hnd hg
  have hacc0 : metaAccum0 (rtDesc title? coreC metaG).metaLines = ⟨mk2, metaG, []⟩ := by
    show metaAccum0 (metaG.flatMap (fun kv => groupLines kv.1 kv.2)) = _
    unfold metaAccum0
    rw [hacc]
    simp
  have hupd2 : dictUpdate ([] : List (String × String))
      (metaG.map (fun kv => (kv.1, pyJoin "\n" kv.2)))
      = metaG.map (fun kv => (kv.1, pyJoin "\n" kv.2)) := by
    have h0 := dictUpdate_nil (prepareMeta metaG) (by rw [prepareMeta_keys]; exact hnd)
    simpa [prepareMeta] using h0
  have hrec : collapseRec
      ⟨(RTC.getvalue (coreC.map (fun l => l ++ "\n"))).1,
       (RTC.getvalue (coreC.map (fun l => l ++ "\n"))).2, none⟩
      (metaAccum0 (rtDesc title? coreC metaG).metaLines).meta
      (pyStrip (rtDesc title? coreC metaG).l1)
      = mOf title? coreC metaG := by
    rw [hacc0]
    unfold collapseRec mOf rtDesc
    cases title? with
    | none =>
      simp [show pyStrip ("" ++ "\n") = "" from by decide,
        show pyStrip "\n" = "" from by decide, hupd2, prepareMeta, RTC]
    | some t =>
      obtain ⟨hne, hstrip, _, _⟩ := goodTitle_elim t ht
      simp [hstrip, hne, hupd2, prepareMeta, RTC]
  have hcv : RTC.convert (collapseRec
      ⟨(RTC.getvalue (coreC.map (fun l => l ++ "\n"))).1,
       (RTC.getvalue (coreC.map (fun l => l ++ "\n"))).2, none⟩
      (metaAccum0 (rtDesc title? coreC metaG).metaLines).meta
      (pyStrip (rtDesc title? coreC metaG).l1)) = some (mOf title? coreC metaG) := by
    rw [hrec]
    rfl
  have h1 : startsDollars (rtDesc title? coreC metaG).l1 = false := by
    cases title? with
    | none =>
      show startsDollars (("" : String) ++ "\n") = false
      decide
    | some t => exact (goodTitle_elim t ht).2.2.2
  have hm : ∀ l ∈ (rtDesc title? coreC metaG).metaLines, startsDollars l = false := by
    intro l hl
    simp only [rtDesc, List.mem_flatMap] at hl
    obtain ⟨kv, hkv, hl⟩ := hl
    unfold groupLines at hl
    rcases List.mem_cons.mp hl with rfl | hl
    · exact startsDollars_header kv.1
    · obtain ⟨v, hv, rfl⟩ := List.mem_map.mp hl
      exact (goodVal_elim v ((hg kv hkv).2.2 v hv)).2.2.2.1
  have h2 : startsDollars (rtDesc title? coreC metaG).l2 = false := by
    show startsDollars "\n" = false
    decide
  have h3 : startsDollars (rtDesc title? coreC metaG).l3 = false := by
    show startsDollars "\n" = false
    decide
  have h4 : startsDollars (rtDesc title? coreC metaG).counts = false := by
    show startsDollars rtCounts = false
    decide
  have hfin := run_record_mol RTC rtCfg (rtDesc title? coreC metaG) []
    (coreC.map (fun l => l ++ "\n")) [] (mOf title? coreC metaG) ""
    (if rtCfg.seekable then some 0 else none) 0 0
    h1 h2 h3 h4 hm hip hrb hcv
  unfold sdfOutputs
  rw [show initState rtCfg (List String) (List String)
      = freshSt (List String) (List String) ""
          (if rtCfg.seekable then some 0 else none) 0 0 from rfl]
  rw [hfin]
  simp [finish, finalizeRecord, freshSt, attachLog, rtCfg]

/-- C8 counterexample: the round trip is not universal — a metadata entry
with an empty value is written as a header plus a blank line, the reader
drops the blank value line, and the key disappears from the re-parsed
object's metadata. -/
theorem claim_C8_counterexample :
    sdfOutputs RTC rtCfg (splitLines (sdfWrite RTW ⟨["line1\n"], [("K", "")], none⟩))
      = [Output.mol ⟨["line1\n"], [], none⟩] ∧
    (⟨["line1\n"], [], none⟩ : TRec) ≠ ⟨["line1\n"], [("K", "")], none⟩ := by decide

/-- Witness for the amended C8 at a concrete object with a title, two
structural lines and two metadata keys, one with a multi-line value. -/
theorem claim_C8_witness :
    sdfOutputs RTC rtCfg (splitLines (sdfWrite RTW
        (mOf (some "Mol W") ["c one", "c two"] [("K1", ["va", "vb"]), ("K2", ["w"])])))
      = [Output.mol (mOf (some "Mol W") ["c one", "c two"]
          [("K1", ["va", "vb"]), ("K2", ["w"])])] :=
  claim_C8_amended (some "Mol W") ["c one", "c two"]
    [("K1", ["va", "vb"]), ("K2", ["w"])]
    (by decide)
    (by intro l hl; fin_cases hl <;> exact ⟨by decide, by decide⟩)
    (by decide)
    (by
      intro kv hkv
      fin_cases hkv <;>
        exact ⟨by decide, by decide, by intro v hv; fin_cases hv <;> decide⟩)

end SDF

